import Mathlib

/-!
Shallow embedding of the Firestore remote serializer
(Firestore/core/src/firebase/firestore/remote/serializer.cc).

Bytes are modelled as natural numbers; every byte taken off a stream is
reduced modulo 256, matching the uint8 buffers of the source.  The nanopb
wire primitives (varint, tag, length-delimited substream framing) are not
part of the source file; they are modelled from the spec, section 4.2.
The only error code the serializer ever stores is DATA_LOSS, so the sticky
stream status is a two-valued type.  FIREBASE_ASSERT failures abort the
process; following the spec (sections 7 and 9) they are modelled as an
exceptional result carrying the reason of the assertion.  The decoders
recurse on an explicit fuel argument; the facade passes fuel that is always
sufficient for the given input, so the out-of-fuel outcome marks nothing
the C++ code can do.
-/

namespace Remote

/-- Sticky stream status: the serializer only ever stores OK or DATA_LOSS. -/
inductive Status where
  | ok
  | dataLoss
deriving DecidableEq

/-- Reasons of fatal FIREBASE_ASSERT aborts in the serializer, plus the
out-of-fuel marker of the fuel-based decoders. -/
inductive AbortReason where
  | outOfFuel
  | unknownTag
  | internalError
  | substreamRemaining
  | mapFieldsTagMismatch
  | mapFieldsWireMismatch
  | entryKeyTagMismatch
  | entryKeyWireMismatch
  | entryValueTagMismatch
  | entryValueWireMismatch
  | duplicateKey
  | streamFull
  | insufficientSpace
  | nestedSizeMismatch
  | invalidResourceName
  | wrongProject
  | wrongDatabase
  | missingDocumentsSegment
deriving DecidableEq

/-- Modelled from the spec: wire types (section 3): VARINT is 0 and STRING
(length delimited) is 2. -/
def PB_WT_VARINT : Nat := 0

/-- Modelled from the spec: the length-delimited wire type. -/
def PB_WT_STRING : Nat := 2

/-- Modelled from the spec: field number of the null variant (section 3 table),
the nanopb constant google_firestore_v1beta1_Value_null_value_tag. -/
def Value_null_value_tag : Nat := 11

/-- Modelled from the spec: field number of the boolean variant. -/
def Value_boolean_value_tag : Nat := 1

/-- Modelled from the spec: field number of the integer variant. -/
def Value_integer_value_tag : Nat := 2

/-- Modelled from the spec: field number of the string variant. -/
def Value_string_value_tag : Nat := 17

/-- Modelled from the spec: field number of the timestamp variant. -/
def Value_timestamp_value_tag : Nat := 10

/-- Modelled from the spec: field number of the map variant. -/
def Value_map_value_tag : Nat := 6

/-- Modelled from the spec: field number of the repeated fields entry inside
a MapValue message. -/
def MapValue_fields_tag : Nat := 1

/-- Modelled from the spec: field number of the key inside a FieldsEntry. -/
def FieldsEntry_key_tag : Nat := 1

/-- Modelled from the spec: field number of the value inside a FieldsEntry. -/
def FieldsEntry_value_tag : Nat := 2

/-- Modelled from the spec: field number of seconds inside google.protobuf.Timestamp. -/
def Timestamp_seconds_tag : Nat := 1

/-- Modelled from the spec: field number of nanos inside google.protobuf.Timestamp. -/
def Timestamp_nanos_tag : Nat := 2

/-- Modelled from the spec: TimestampInternal::Min().seconds(), the earliest
supported date (year 0001). -/
def timestampMinSeconds : Int := -62135596800

/-- Modelled from the spec: TimestampInternal::Max().seconds(), the latest
supported date (year 9999). -/
def timestampMaxSeconds : Int := 253402300799

/-- Modelled from the spec: unsigned LEB128 varint emission (section 4.2), the
nanopb pb_encode_varint primitive.  Ten bytes cover every 64-bit value; the
fuel argument only bounds that length. -/
def encodeVarintAux : Nat → Nat → List Nat
  | 0, _ => []
  | fuel + 1, n => if n < 128 then [n] else (n % 128 + 128) :: encodeVarintAux fuel (n / 128)

/-- Emit a 64-bit varint (the value wraps modulo two to the 64). -/
def encodeVarint (n : Nat) : List Nat := encodeVarintAux 10 (n % 2 ^ 64)

/-- Modelled from the spec: varint decoding, the nanopb pb_decode_varint
primitive: reads LEB128 bytes, failing on a truncated varint or on one longer
than ten bytes; the accumulated value wraps modulo two to the 64.  Returns the
value (none on failure) together with the not yet consumed bytes. -/
def readVarintAux (bitpos acc : Nat) : List Nat → Option Nat × List Nat
  | [] => (none, [])
  | b :: rest =>
    if 64 ≤ bitpos then (none, b :: rest)
    else
      let b' := b % 256
      let acc' := acc + b' % 128 * 2 ^ bitpos
      if b' < 128 then (some (acc' % 2 ^ 64), rest) else readVarintAux (bitpos + 7) acc' rest

/-- Remaining bytes of the current (possibly bounded) region together with the
sticky status: the Reader wrapper over pb_istream_from_buffer. -/
structure Reader where
  input : List Nat
  status : Status
deriving DecidableEq

/-- Represents a nanopb tag: wire type and field number. -/
structure Tag where
  wireType : Nat
  fieldNumber : Nat
deriving DecidableEq

/-- Reinterpret an unsigned 64-bit varint value as a two's-complement signed
64-bit integer (Reader::ReadInteger, and the nanopb int64 field decode). -/
def toInt64 (n : Nat) : Int :=
  if n % 2 ^ 64 < 2 ^ 63 then ((n % 2 ^ 64 : Nat) : Int) else ((n % 2 ^ 64 : Nat) : Int) - 2 ^ 64

/-- Truncate an unsigned varint value to 32 bits and reinterpret it as a
two's-complement signed 32-bit integer (the nanopb int32 field decode). -/
def toInt32 (n : Nat) : Int :=
  if n % 2 ^ 32 < 2 ^ 31 then ((n % 2 ^ 32 : Nat) : Int) else ((n % 2 ^ 32 : Nat) : Int) - 2 ^ 32

/-- Two's-complement image of a signed integer in an unsigned 64-bit varint
payload (the int64 to uint64 cast on the write side). -/
def intToU64 (i : Int) : Nat := (i % (2 ^ 64 : Int)).toNat

/-- Reader::ReadVarint: a no-op when the status is already failed; otherwise
decode one varint, setting DATA_LOSS and returning zero on failure. -/
def Reader.readVarint (r : Reader) : Nat × Reader :=
  if r.status ≠ .ok then (0, r)
  else
    match readVarintAux 0 0 r.input with
    | (some v, rest) => (v, ⟨rest, .ok⟩)
    | (none, rest) => (0, ⟨rest, .dataLoss⟩)

/-- Reader::ReadTag, wrapping pb_decode_tag: a zero tag is the eof special
case and, like a malformed varint, yields DATA_LOSS. -/
def Reader.readTag (r : Reader) : Tag × Reader :=
  if r.status ≠ .ok then (⟨0, 0⟩, r)
  else
    match readVarintAux 0 0 r.input with
    | (some v, rest) => if v = 0 then (⟨0, 0⟩, ⟨rest, .dataLoss⟩) else (⟨v % 8, v / 8⟩, ⟨rest, .ok⟩)
    | (none, rest) => (⟨0, 0⟩, ⟨rest, .dataLoss⟩)

/-- Reader::ReadNull: read a varint and require the NULL_VALUE enum zero. -/
def Reader.readNull (r : Reader) : Reader :=
  let p := r.readVarint
  if p.2.status ≠ .ok then p.2
  else if p.1 ≠ 0 then { p.2 with status := .dataLoss }
  else p.2

/-- Reader::ReadBool: read a varint; only zero and one are valid. -/
def Reader.readBool (r : Reader) : Bool × Reader :=
  let p := r.readVarint
  if p.2.status ≠ .ok then (false, p.2)
  else if p.1 = 0 then (false, p.2)
  else if p.1 = 1 then (true, p.2)
  else (false, { p.2 with status := .dataLoss })

/-- Reader::ReadInteger: read a varint and reinterpret it as int64, with no
validation of any kind. -/
def Reader.readInteger (r : Reader) : Int × Reader :=
  let p := r.readVarint
  (toInt64 p.1, p.2)

/-- Reader::ReadString: open a bounded region of the prefixed length and read
it whole.  A length prefix past the remaining bytes is the pb_make_string_substream
failure (parent stream too short) and leaves the parent past the prefix. -/
def Reader.readString (r : Reader) : List Nat × Reader :=
  if r.status ≠ .ok then ([], r)
  else
    match readVarintAux 0 0 r.input with
    | (none, rest) => ([], ⟨rest, .dataLoss⟩)
    | (some size, rest) =>
      if rest.length < size then ([], ⟨rest, .dataLoss⟩)
      else (rest.take size, ⟨rest.drop size, .ok⟩)

/-- Reader::ReadNestedMessage: open a bounded region of the prefixed length,
run the body on it, adopt the body's status, and assert that the region was
fully consumed.  The assertion runs even when the body failed, so a body that
stops with DATA_LOSS before the end of its region aborts the process. -/
def Reader.readNestedMessage {α : Type} (r : Reader) (dflt : α)
    (body : Reader → Except AbortReason (α × Reader)) : Except AbortReason (α × Reader) :=
  if r.status ≠ .ok then .ok (dflt, r)
  else
    match readVarintAux 0 0 r.input with
    | (none, rest) => .ok (dflt, ⟨rest, .dataLoss⟩)
    | (some size, rest) =>
      if rest.length < size then .ok (dflt, ⟨rest, .dataLoss⟩)
      else
        match body ⟨rest.take size, .ok⟩ with
        | .error a => .error a
        | .ok (msg, sub) =>
          if sub.input.length ≠ 0 then .error .substreamRemaining
          else .ok (msg, ⟨rest.drop size, sub.status⟩)

mutual
/-- The supported FieldValue variants (the domain FieldValue type is an
external collaborator; this closed set is what the codec implements, spec
section 3).  Strings and map keys are byte sequences; the timestamp payload
is the pair of seconds and nanoseconds. -/
inductive FieldValue where
  | null
  | boolean (b : Bool)
  | integer (i : Int)
  | str (s : List Nat)
  | timestamp (seconds : Int) (nanos : Int)
  | object (m : ObjMap)
deriving DecidableEq
/-- Modelled from the spec: the ObjectValue map, an insertion-order-preserving
association list of key and value pairs (section 3). -/
inductive ObjMap where
  | nil
  | entry (key : List Nat) (value : FieldValue) (rest : ObjMap)
deriving DecidableEq
end

/-- Membership of a key in the map (the std::map find on the decode path). -/
def ObjMap.hasKey : ObjMap → List Nat → Bool
  | .nil, _ => false
  | .entry k _ rest, key => k == key || rest.hasKey key

/-- Append an entry at the end: the model of inserting a fresh key into an
insertion-order-preserving map. -/
def ObjMap.push : ObjMap → List Nat → FieldValue → ObjMap
  | .nil, k, v => .entry k v .nil
  | .entry k0 v0 rest, k, v => .entry k0 v0 (rest.push k v)

/-- Concatenation of two maps, entry lists appended in order. -/
def ObjMap.append : ObjMap → ObjMap → ObjMap
  | .nil, m2 => m2
  | .entry k v rest, m2 => .entry k v (rest.append m2)

/-- The keys of the map in iteration order. -/
def ObjMap.keys : ObjMap → List (List Nat)
  | .nil => []
  | .entry k _ rest => k :: rest.keys

/-- Membership of a key in a list of already seen keys. -/
def keyInList (k : List Nat) : List (List Nat) → Bool
  | [] => false
  | s :: ss => s == k || keyInList k ss

/-- Modelled from the spec: one pb_decode pass over the google.protobuf.Timestamp
schema (section 6): seconds is an int64 varint at field 1, nanos an int32 varint
at field 2; unknown fields are skipped by wire type; a zero tag ends the message
early; later occurrences of a field overwrite earlier ones. -/
def readTimestampProtoAux : Nat → Int → Int → Reader → Except AbortReason ((Int × Int) × Reader)
  | 0, _, _, _ => .error .outOfFuel
  | fuel + 1, sec, nan, r =>
    if r.input.length = 0 then .ok ((sec, nan), r)
    else
      match readVarintAux 0 0 r.input with
      | (none, rest) => .ok ((sec, nan), ⟨rest, .dataLoss⟩)
      | (some v, rest) =>
        if v = 0 then .ok ((sec, nan), ⟨rest, .ok⟩)
        else
          let wt := v % 8
          let fn := v / 8
          if fn = Timestamp_seconds_tag then
            if wt ≠ PB_WT_VARINT then .ok ((sec, nan), ⟨rest, .dataLoss⟩)
            else
              match readVarintAux 0 0 rest with
              | (none, rest') => .ok ((sec, nan), ⟨rest', .dataLoss⟩)
              | (some s, rest') => readTimestampProtoAux fuel (toInt64 s) nan ⟨rest', .ok⟩
          else if fn = Timestamp_nanos_tag then
            if wt ≠ PB_WT_VARINT then .ok ((sec, nan), ⟨rest, .dataLoss⟩)
            else
              match readVarintAux 0 0 rest with
              | (none, rest') => .ok ((sec, nan), ⟨rest', .dataLoss⟩)
              | (some n, rest') => readTimestampProtoAux fuel sec (toInt32 n) ⟨rest', .ok⟩
          else if wt = PB_WT_VARINT then
            match readVarintAux 0 0 rest with
            | (none, rest') => .ok ((sec, nan), ⟨rest', .dataLoss⟩)
            | (some _, rest') => readTimestampProtoAux fuel sec nan ⟨rest', .ok⟩
          else if wt = PB_WT_STRING then
            match readVarintAux 0 0 rest with
            | (none, rest') => .ok ((sec, nan), ⟨rest', .dataLoss⟩)
            | (some len, rest') =>
              if rest'.length < len then .ok ((sec, nan), ⟨rest', .dataLoss⟩)
              else readTimestampProtoAux fuel sec nan ⟨rest'.drop len, .ok⟩
          else if wt = 5 then
            if rest.length < 4 then .ok ((sec, nan), ⟨rest, .dataLoss⟩)
            else readTimestampProtoAux fuel sec nan ⟨rest.drop 4, .ok⟩
          else if wt = 1 then
            if rest.length < 8 then .ok ((sec, nan), ⟨rest, .dataLoss⟩)
            else readTimestampProtoAux fuel sec nan ⟨rest.drop 8, .ok⟩
          else .ok ((sec, nan), ⟨rest, .dataLoss⟩)

/-- DecodeTimestamp: read the nanopb Timestamp message, then validate the
seconds and nanos ranges, setting DATA_LOSS rather than letting the domain
Timestamp constructor assert.  The range checks run on the (partially) filled
proto even when the message read failed, exactly as in the source. -/
def decodeTimestamp (fuel : Nat) (r : Reader) : Except AbortReason ((Int × Int) × Reader) := do
  let p ← if r.status ≠ .ok then pure ((0, 0), r) else readTimestampProtoAux fuel 0 0 r
  let sec := p.1.1
  let nan := p.1.2
  let r' := p.2
  if sec < timestampMinSeconds then pure ((0, 0), { r' with status := .dataLoss })
  else if timestampMaxSeconds < sec then pure ((0, 0), { r' with status := .dataLoss })
  else if nan < 0 ∨ 999999999 < nan then pure ((0, 0), { r' with status := .dataLoss })
  else pure ((sec, nan), r')

mutual
/-- DecodeFieldValueImpl: read one tag; validate the wire type against the
field-number table, where an unknown field number fails a FIREBASE_ASSERT
(aborting before the DATA_LOSS status after it could be returned); then
dispatch to the typed read for the field number. -/
def decodeFieldValueImpl : Nat → Reader → Except AbortReason (FieldValue × Reader)
  | 0, _ => .error .outOfFuel
  | fuel + 1, r0 =>
    let tp := r0.readTag
    let tag := tp.1
    let r1 := tp.2
    if r1.status ≠ .ok then .ok (.null, r1)
    else do
      let r2 ←
        if tag.fieldNumber = Value_null_value_tag ∨ tag.fieldNumber = Value_boolean_value_tag ∨
            tag.fieldNumber = Value_integer_value_tag then
          pure (if tag.wireType ≠ PB_WT_VARINT then { r1 with status := Status.dataLoss } else r1)
        else if tag.fieldNumber = Value_string_value_tag ∨
            tag.fieldNumber = Value_timestamp_value_tag ∨
            tag.fieldNumber = Value_map_value_tag then
          pure (if tag.wireType ≠ PB_WT_STRING then { r1 with status := Status.dataLoss } else r1)
        else Except.error AbortReason.unknownTag
      if r2.status ≠ .ok then pure (FieldValue.null, r2)
      else if tag.fieldNumber = Value_null_value_tag then pure (FieldValue.null, r2.readNull)
      else if tag.fieldNumber = Value_boolean_value_tag then
        let p := r2.readBool
        pure (FieldValue.boolean p.1, p.2)
      else if tag.fieldNumber = Value_integer_value_tag then
        let p := r2.readInteger
        pure (FieldValue.integer p.1, p.2)
      else if tag.fieldNumber = Value_string_value_tag then
        let p := r2.readString
        pure (FieldValue.str p.1, p.2)
      else if tag.fieldNumber = Value_timestamp_value_tag then
        let p ← r2.readNestedMessage ((0 : Int), (0 : Int)) (decodeTimestamp fuel)
        pure (FieldValue.timestamp p.1.1 p.1.2, p.2)
      else if tag.fieldNumber = Value_map_value_tag then
        let p ← decodeObject fuel r2
        pure (FieldValue.object p.1, p.2)
      else Except.error AbortReason.internalError

/-- DecodeObject: read the MapValue as a nested message whose body loops over
the FieldsEntry occurrences while bytes remain in the region. -/
def decodeObject : Nat → Reader → Except AbortReason (ObjMap × Reader)
  | 0, _ => .error .outOfFuel
  | fuel + 1, r =>
    if r.status ≠ .ok then .ok (.nil, r)
    else
      r.readNestedMessage .nil fun sub =>
        if sub.status ≠ .ok then .ok (.nil, sub) else decodeObjectLoop fuel .nil sub

/-- The while loop in DecodeObject's body: read a fields tag (its field number
and wire type are FIREBASE_ASSERTed), read one FieldsEntry, assert the key is
not already present (a duplicate key aborts), and append the entry. -/
def decodeObjectLoop : Nat → ObjMap → Reader → Except AbortReason (ObjMap × Reader)
  | 0, _, _ => .error .outOfFuel
  | fuel + 1, result, r =>
    if r.input.length = 0 then .ok (result, r)
    else
      let tp := r.readTag
      let tag := tp.1
      let r1 := tp.2
      if r1.status ≠ .ok then .ok (result, r1)
      else if tag.fieldNumber ≠ MapValue_fields_tag then .error .mapFieldsTagMismatch
      else if tag.wireType ≠ PB_WT_STRING then .error .mapFieldsWireMismatch
      else do
        let p ← r1.readNestedMessage (([], FieldValue.null)) (decodeFieldsEntry fuel)
        let kv := p.1
        let r2 := p.2
        if r2.status ≠ .ok then pure (result, r2)
        else if result.hasKey kv.1 then Except.error AbortReason.duplicateKey
        else decodeObjectLoop fuel (result.push kv.1 kv.2) r2

/-- DecodeFieldsEntry: read the key (field 1, string) and the value (field 2,
a nested FieldValue); both tags are FIREBASE_ASSERTed. -/
def decodeFieldsEntry : Nat → Reader → Except AbortReason ((List Nat × FieldValue) × Reader)
  | 0, _ => .error .outOfFuel
  | fuel + 1, r =>
    let tp := r.readTag
    let tag := tp.1
    let r1 := tp.2
    if r1.status ≠ .ok then .ok (([], .null), r1)
    else if tag.fieldNumber ≠ FieldsEntry_key_tag then .error .entryKeyTagMismatch
    else if tag.wireType ≠ PB_WT_STRING then .error .entryKeyWireMismatch
    else
      let sp := r1.readString
      let key := sp.1
      let r2 := sp.2
      let tp2 := r2.readTag
      let tag2 := tp2.1
      let r3 := tp2.2
      if r3.status ≠ .ok then .ok (([], .null), r3)
      else if tag2.fieldNumber ≠ FieldsEntry_value_tag then .error .entryValueTagMismatch
      else if tag2.wireType ≠ PB_WT_STRING then .error .entryValueWireMismatch
      else do
        let p ← r3.readNestedMessage FieldValue.null (decodeFieldValueImpl fuel)
        pure ((key, p.1), p.2)
end

/-- Result of the Serializer::DecodeFieldValue facade: a value (OK status), a
DATA_LOSS error status, or a process abort from a failed assertion. -/
inductive DecodeResult where
  | value (v : FieldValue)
  | dataLoss
  | abort (a : AbortReason)
deriving DecidableEq

/-- Serializer::DecodeFieldValue: a fresh Reader over the whole input; the
decoded value is returned when the final status is OK and the error status
otherwise.  No residual-bytes check is performed.  The fuel argument bounds
the recursion depth of the model only; twice the input length plus two always
suffices. -/
def Serializer.decodeFieldValue (bytes : List Nat) : DecodeResult :=
  match decodeFieldValueImpl (2 * bytes.length + 2) ⟨bytes, .ok⟩ with
  | .error a => .abort a
  | .ok p => if p.2.status = .ok then .value p.1 else .dataLoss

/-- A document is defined to have a max size of 1 MiB minus 4 bytes. -/
def kMaxDocumentSize : Nat := 1024 * 1024 - 4

/-- Writer state over the nanopb pb_ostream_t: a sizing stream (null callback)
only counts, a real stream appends to the caller's vector under the max-size
ceiling. -/
structure Writer where
  sizing : Bool
  out : List Nat
  written : Nat
  maxSize : Nat
  status : Status
deriving DecidableEq

/-- Writer::Wrap: a real output stream over the caller's vector with the
document-size ceiling. -/
def Writer.Wrap : Writer := ⟨false, [], 0, kMaxDocumentSize, .ok⟩

/-- Writer::Sizing: a non-writing stream used to compute sizes. -/
def Writer.Sizing : Writer := ⟨true, [], 0, 0, .ok⟩

/-- Modelled from the spec: pb_write: a sizing stream only counts; a real
stream enforces the size ceiling (failing with stream full) and appends to the
buffer (the vector callback itself never fails). -/
def Writer.pbWrite (w : Writer) (bs : List Nat) : Option Writer :=
  if w.sizing then some { w with written := w.written + bs.length }
  else if w.maxSize < w.written + bs.length then none
  else some { w with out := w.out ++ bs, written := w.written + bs.length }

/-- Writer::WriteVarint: a no-op on failed status; a pb_encode_varint failure
is a fatal assertion. -/
def Writer.writeVarint (w : Writer) (value : Nat) : Except AbortReason Writer :=
  if w.status ≠ .ok then .ok w
  else
    match w.pbWrite (encodeVarint value) with
    | some w' => .ok w'
    | none => .error .streamFull

/-- Writer::WriteTag, wrapping pb_encode_tag: the tag varint packs the field
number above the 3-bit wire type. -/
def Writer.writeTag (w : Writer) (tag : Tag) : Except AbortReason Writer :=
  if w.status ≠ .ok then .ok w
  else
    match w.pbWrite (encodeVarint (tag.fieldNumber * 8 + tag.wireType)) with
    | some w' => .ok w'
    | none => .error .streamFull

/-- Writer::WriteSize: sizes are written as plain varints. -/
def Writer.writeSize (w : Writer) (size : Nat) : Except AbortReason Writer := w.writeVarint size

/-- Writer::WriteNull: the NULL_VALUE enum zero as a varint. -/
def Writer.writeNull (w : Writer) : Except AbortReason Writer := w.writeVarint 0

/-- Writer::WriteBool. -/
def Writer.writeBool (w : Writer) (b : Bool) : Except AbortReason Writer :=
  w.writeVarint (if b then 1 else 0)

/-- Writer::WriteInteger: the int64 bit pattern as an unsigned varint. -/
def Writer.writeInteger (w : Writer) (i : Int) : Except AbortReason Writer :=
  w.writeVarint (intToU64 i)

/-- Writer::WriteString, wrapping pb_encode_string: varint length prefix then
the payload bytes. -/
def Writer.writeString (w : Writer) (s : List Nat) : Except AbortReason Writer :=
  if w.status ≠ .ok then .ok w
  else
    match w.pbWrite (encodeVarint s.length ++ s) with
    | some w' => .ok w'
    | none => .error .streamFull

/-- Writer::WriteNestedMessage: two-pass emission.  Size the body with a fresh
sizing writer and write the size; a sizing outer stream then only advances its
counter; otherwise check the ceiling, run the body again into a bounded
sub-writer sharing the buffer, and assert that the two passes agree. -/
def Writer.writeNestedMessage (w : Writer) (body : Writer → Except AbortReason Writer) :
    Except AbortReason Writer := do
  if w.status ≠ .ok then pure w
  else do
    let sizer ← body Writer.Sizing
    if sizer.status ≠ .ok then pure { w with status := sizer.status }
    else do
      let size := sizer.written
      let w1 ← w.writeSize size
      if w1.status ≠ .ok then pure w1
      else if w1.sizing then pure { w1 with written := w1.written + size }
      else if w1.maxSize < w1.written + size then .error .insufficientSpace
      else do
        let sub ← body ⟨false, [], 0, size, .ok⟩
        if sub.status ≠ .ok then pure { w1 with status := sub.status }
        else
          let w2 := { w1 with out := w1.out ++ sub.out, written := w1.written + sub.written }
          if sub.written ≠ size then .error .nestedSizeMismatch
          else pure w2

/-- EncodeTimestamp via Writer::WriteNanopbMessage over google.protobuf.Timestamp.
Modelled from the spec (sections 4.3 and 6): field 1 carries seconds as an
int64 varint and field 2 nanos as an int32 varint; both fields are emitted
explicitly. -/
def encodeTimestampFields (seconds nanos : Int) (w : Writer) : Except AbortReason Writer := do
  if w.status ≠ .ok then pure w
  else do
    let w1 ← w.writeTag ⟨PB_WT_VARINT, Timestamp_seconds_tag⟩
    let w2 ← w1.writeVarint (intToU64 seconds)
    let w3 ← w2.writeTag ⟨PB_WT_VARINT, Timestamp_nanos_tag⟩
    w3.writeVarint (intToU64 nanos)

mutual
/-- EncodeFieldValueImpl: dispatch on the variant, writing the oneof tag and
then the payload.  The object arm is EncodeObject inlined: a nested message
whose body writes each FieldsEntry in iteration order. -/
def encodeFieldValueImpl (w : Writer) : FieldValue → Except AbortReason Writer
  | .null => do
    let w1 ← w.writeTag ⟨PB_WT_VARINT, Value_null_value_tag⟩
    w1.writeNull
  | .boolean b => do
    let w1 ← w.writeTag ⟨PB_WT_VARINT, Value_boolean_value_tag⟩
    w1.writeBool b
  | .integer i => do
    let w1 ← w.writeTag ⟨PB_WT_VARINT, Value_integer_value_tag⟩
    w1.writeInteger i
  | .str s => do
    let w1 ← w.writeTag ⟨PB_WT_STRING, Value_string_value_tag⟩
    w1.writeString s
  | .timestamp sec nan => do
    let w1 ← w.writeTag ⟨PB_WT_STRING, Value_timestamp_value_tag⟩
    w1.writeNestedMessage (encodeTimestampFields sec nan)
  | .object m => do
    let w1 ← w.writeTag ⟨PB_WT_STRING, Value_map_value_tag⟩
    w1.writeNestedMessage fun sub => encodeEntries sub m

/-- The body of EncodeObject: write every FieldsEntry, each as a fields tag
followed by the entry as a nested message (EncodeFieldsEntry inlined: key tag
and string, then value tag and the value as a nested message). -/
def encodeEntries (w : Writer) : ObjMap → Except AbortReason Writer
  | .nil => pure w
  | .entry k v rest => do
    let w1 ← w.writeTag ⟨PB_WT_STRING, FieldsEntry_key_tag⟩
    let w2 ← w1.writeNestedMessage fun sub => do
      let s1 ← sub.writeTag ⟨PB_WT_STRING, FieldsEntry_key_tag⟩
      let s2 ← s1.writeString k
      let s3 ← s2.writeTag ⟨PB_WT_STRING, FieldsEntry_value_tag⟩
      s3.writeNestedMessage fun sub2 => encodeFieldValueImpl sub2 v
    encodeEntries w2 rest
end

/-- EncodeFieldsEntry as a standalone definition (the loop above inlines it
for the sake of structural recursion). -/
def encodeFieldsEntry (w : Writer) (k : List Nat) (v : FieldValue) : Except AbortReason Writer := do
  let w1 ← w.writeTag ⟨PB_WT_STRING, FieldsEntry_key_tag⟩
  let w2 ← w1.writeString k
  let w3 ← w2.writeTag ⟨PB_WT_STRING, FieldsEntry_value_tag⟩
  w3.writeNestedMessage fun sub => encodeFieldValueImpl sub v

/-- EncodeObject as a standalone definition (the object arm of
encodeFieldValueImpl inlines it). -/
def encodeObject (w : Writer) (m : ObjMap) : Except AbortReason Writer :=
  w.writeNestedMessage fun sub => encodeEntries sub m

/-- Serializer::EncodeFieldValue: a fresh wrapping Writer over the caller's
buffer; the field value is encoded and the sticky status returned together
with the bytes appended to the buffer. -/
def Serializer.encodeFieldValue (field_value : FieldValue) :
    Except AbortReason (Status × List Nat) := do
  let w ← encodeFieldValueImpl Writer.Wrap field_value
  pure (w.status, w.out)

/-- Modelled from the spec: ResourcePath::CanonicalString: the segments joined
by slash separators (section 3). -/
def canonicalString (segments : List (List Char)) : List Char :=
  List.intercalate ['/'] segments

/-- Modelled from the spec: ResourcePath::FromString: split the name at the
slash separators. -/
def splitSlash : List Char → List (List Char)
  | [] => [[]]
  | c :: rest =>
    match splitSlash rest with
    | [] => [[c]]
    | seg :: segs => if c = '/' then [] :: seg :: segs else (c :: seg) :: segs

/-- DatabaseId: the project and database identifiers (an external collaborator,
carried here as plain character lists). -/
structure DatabaseId where
  project_id : List Char
  database_id : List Char
deriving DecidableEq

/-- EncodeDatabaseId: the resource prefix naming a database. -/
def encodeDatabaseId (database_id : DatabaseId) : List (List Char) :=
  ["projects".toList, database_id.project_id, "databases".toList, database_id.database_id]

/-- EncodeResourceName: the database prefix, the documents segment, then the
document path, joined canonically. -/
def encodeResourceName (database_id : DatabaseId) (path : List (List Char)) : List Char :=
  canonicalString (encodeDatabaseId database_id ++ "documents".toList :: path)

/-- IsValidResourceName: at least four segments, the first is projects and the
third is databases. -/
def isValidResourceName (path : List (List Char)) : Bool :=
  decide (4 ≤ path.length) && path.getD 0 [] == "projects".toList &&
    path.getD 2 [] == "databases".toList

/-- DecodeResourceName: parse the name and FIREBASE_ASSERT validity. -/
def decodeResourceName (encoded : List Char) : Except AbortReason (List (List Char)) :=
  let resource := splitSlash encoded
  if isValidResourceName resource then .ok resource else .error .invalidResourceName

/-- ExtractLocalPathFromResourceName: FIREBASE_ASSERT a fifth documents segment
and drop the five-segment prefix. -/
def extractLocalPathFromResourceName (resource_name : List (List Char)) :
    Except AbortReason (List (List Char)) :=
  if decide (4 < resource_name.length) && resource_name.getD 4 [] == "documents".toList then
    .ok (resource_name.drop 5)
  else .error .missingDocumentsSegment

/-- Serializer::EncodeKey: the resource name of the key's path under the
configured DatabaseId. -/
def Serializer.encodeKey (database_id : DatabaseId) (key : List (List Char)) : List Char :=
  encodeResourceName database_id key

/-- Serializer::DecodeKey: decode the resource name, FIREBASE_ASSERT that the
project and database match the configured DatabaseId, and extract the local
path. -/
def Serializer.decodeKey (database_id : DatabaseId) (name : List Char) :
    Except AbortReason (List (List Char)) := do
  let resource ← decodeResourceName name
  if resource.getD 1 [] ≠ database_id.project_id then .error .wrongProject
  else if resource.getD 3 [] ≠ database_id.database_id then .error .wrongDatabase
  else extractLocalPathFromResourceName resource

/-- The nanopb timestamp fields as plain bytes: the reference image of
encodeTimestampFields. -/
def encTS (sec nan : Int) : List Nat :=
  encodeVarint (Timestamp_seconds_tag * 8 + PB_WT_VARINT) ++ encodeVarint (intToU64 sec) ++
    (encodeVarint (Timestamp_nanos_tag * 8 + PB_WT_VARINT) ++ encodeVarint (intToU64 nan))

mutual
/-- Reference byte image of a FieldValue: the bytes EncodeFieldValueImpl
appends to the buffer (proved below to agree with both Writer modes). -/
def encFV : FieldValue → List Nat
  | .null => encodeVarint (Value_null_value_tag * 8 + PB_WT_VARINT) ++ encodeVarint 0
  | .boolean b =>
    encodeVarint (Value_boolean_value_tag * 8 + PB_WT_VARINT) ++
      encodeVarint (if b then 1 else 0)
  | .integer i =>
    encodeVarint (Value_integer_value_tag * 8 + PB_WT_VARINT) ++ encodeVarint (intToU64 i)
  | .str s =>
    encodeVarint (Value_string_value_tag * 8 + PB_WT_STRING) ++ (encodeVarint s.length ++ s)
  | .timestamp sec nan =>
    encodeVarint (Value_timestamp_value_tag * 8 + PB_WT_STRING) ++
      (encodeVarint (encTS sec nan).length ++ encTS sec nan)
  | .object m =>
    encodeVarint (Value_map_value_tag * 8 + PB_WT_STRING) ++
      (encodeVarint (encMapBody m).length ++ encMapBody m)
/-- Reference byte image of the MapValue body: one fields record per entry,
each a length-prefixed FieldsEntry. -/
def encMapBody : ObjMap → List Nat
  | .nil => []
  | .entry k v rest =>
    let entryBytes :=
      encodeVarint (FieldsEntry_key_tag * 8 + PB_WT_STRING) ++ (encodeVarint k.length ++ k) ++
        (encodeVarint (FieldsEntry_value_tag * 8 + PB_WT_STRING) ++
          (encodeVarint (encFV v).length ++ encFV v))
    encodeVarint (MapValue_fields_tag * 8 + PB_WT_STRING) ++
      (encodeVarint entryBytes.length ++ entryBytes) ++ encMapBody rest
end

/-- Reference byte image of one FieldsEntry. -/
def encEntry (k : List Nat) (v : FieldValue) : List Nat :=
  encodeVarint (FieldsEntry_key_tag * 8 + PB_WT_STRING) ++ (encodeVarint k.length ++ k) ++
    (encodeVarint (FieldsEntry_value_tag * 8 + PB_WT_STRING) ++
      (encodeVarint (encFV v).length ++ encFV v))

mutual
/-- Domain validity of a FieldValue: integers fit in int64, timestamps lie in
the supported range with nanos below one billion, object keys are unique, and
all nested values are valid.  These are the invariants the external domain
types guarantee on the encode side and the decoder checks on the decode side. -/
def FieldValue.validb : FieldValue → Bool
  | .null => true
  | .boolean _ => true
  | .integer i => decide (-(2 ^ 63) ≤ i) && decide (i < 2 ^ 63)
  | .str _ => true
  | .timestamp sec nan =>
    decide (timestampMinSeconds ≤ sec) && decide (sec ≤ timestampMaxSeconds) &&
      decide (0 ≤ nan) && decide (nan ≤ 999999999)
  | .object m => !m.clashes [] && m.entriesValidb
/-- Some key of the map equals one of the already seen keys. -/
def ObjMap.clashes : ObjMap → List (List Nat) → Bool
  | .nil, _ => false
  | .entry k _ rest, seen => keyInList k seen || rest.clashes (k :: seen)
/-- All values of the map are valid. -/
def ObjMap.entriesValidb : ObjMap → Bool
  | .nil => true
  | .entry _ v rest => v.validb && rest.entriesValidb
end

/-! ## Lemmas: varint round trip -/

theorem encodeVarintAux_ne_nil (fuel n : Nat) : encodeVarintAux (fuel + 1) n ≠ [] := by
  unfold encodeVarintAux
  split <;> simp

theorem length_encodeVarintAux (fuel n : Nat) :
    (encodeVarintAux fuel n).length ≤ fuel := by
  induction fuel generalizing n with
  | zero => simp [encodeVarintAux]
  | succ f ih =>
    unfold encodeVarintAux
    split
    · simp
    · simpa [Nat.succ_le_succ_iff] using ih (n / 128)

theorem length_encodeVarint_le (n : Nat) : (encodeVarint n).length ≤ 10 :=
  length_encodeVarintAux 10 (n % 2 ^ 64)

theorem one_le_length_encodeVarint (n : Nat) : 1 ≤ (encodeVarint n).length := by
  have h := encodeVarintAux_ne_nil 9 (n % 2 ^ 64)
  show 1 ≤ (encodeVarintAux 10 (n % 2 ^ 64)).length
  cases hc : encodeVarintAux 10 (n % 2 ^ 64) with
  | nil => exact absurd hc h
  | cons b l => simp

theorem readVarintAux_encodeVarintAux (fuel : Nat) :
    ∀ (n bitpos acc : Nat) (rest : List Nat), n < 2 ^ (7 * (fuel + 1)) →
      bitpos + 7 * (fuel + 1) ≤ 70 →
      readVarintAux bitpos acc (encodeVarintAux (fuel + 1) n ++ rest) =
        (some ((acc + n * 2 ^ bitpos) % 2 ^ 64), rest) := by
  induction fuel with
  | zero =>
    intro n bitpos acc rest hn hb
    have hn' : n < 128 := by
      have : (2 : Nat) ^ (7 * 1) = 128 := by norm_num
      omega
    have hbit : ¬ 64 ≤ bitpos := by omega
    simp only [encodeVarintAux, if_pos hn', List.cons_append, List.nil_append, readVarintAux,
      if_neg hbit]
    have h256 : n % 256 = n := Nat.mod_eq_of_lt (by omega)
    have h128 : n % 128 = n := Nat.mod_eq_of_lt hn'
    simp [h256, h128, hn']
  | succ f ih =>
    intro n bitpos acc rest hn hb
    by_cases hn' : n < 128
    · have hbit : ¬ 64 ≤ bitpos := by omega
      simp only [encodeVarintAux, if_pos hn', List.cons_append, List.nil_append, readVarintAux,
        if_neg hbit]
      have h256 : n % 256 = n := Nat.mod_eq_of_lt (by omega)
      have h128 : n % 128 = n := Nat.mod_eq_of_lt hn'
      simp [h256, h128, hn']
    · have hbit : ¬ 64 ≤ bitpos := by omega
      simp only [encodeVarintAux, if_neg hn', List.cons_append, readVarintAux, if_neg hbit]
      have h256 : (n % 128 + 128) % 256 = n % 128 + 128 :=
        Nat.mod_eq_of_lt (by have := Nat.mod_lt n (show 0 < 128 by norm_num); omega)
      have hnotlt : ¬ n % 128 + 128 < 128 := by omega
      simp only [h256, if_neg hnotlt]
      have hdiv : n / 128 < 2 ^ (7 * (f + 1)) := by
        rw [Nat.div_lt_iff_lt_mul (show 0 < 128 by norm_num)]
        calc n < 2 ^ (7 * (f + 1 + 1)) := hn
        _ = 2 ^ (7 * (f + 1)) * 128 := by ring
      have hfold :
          (if n / 128 < 128 then [n / 128]
            else (n / 128 % 128 + 128) :: encodeVarintAux f (n / 128 / 128)) =
            encodeVarintAux (f + 1) (n / 128) := rfl
      rw [hfold]
      have hm : (n % 128 + 128) % 128 = n % 128 := by omega
      rw [hm]
      have := ih (n / 128) (bitpos + 7) (acc + n % 128 * 2 ^ bitpos) rest hdiv (by omega)
      rw [this]
      have heq : acc + n % 128 * 2 ^ bitpos + n / 128 * 2 ^ (bitpos + 7)
          = acc + n * 2 ^ bitpos := by
        have hp : (2 : Nat) ^ (bitpos + 7) = 2 ^ bitpos * 128 := by
          rw [pow_add]; norm_num
        have hsplit : n % 128 + 128 * (n / 128) = n := Nat.mod_add_div n 128
        calc acc + n % 128 * 2 ^ bitpos + n / 128 * 2 ^ (bitpos + 7)
            = acc + (n % 128 + 128 * (n / 128)) * 2 ^ bitpos := by rw [hp]; ring
        _ = acc + n * 2 ^ bitpos := by rw [hsplit]
      rw [heq]

theorem readVarintAux_encodeVarint (n : Nat) (rest : List Nat) :
    readVarintAux 0 0 (encodeVarint n ++ rest) = (some (n % 2 ^ 64), rest) := by
  have h := readVarintAux_encodeVarintAux 9 (n % 2 ^ 64) 0 0 rest
    (by
      have h1 : n % 2 ^ 64 < 2 ^ 64 := Nat.mod_lt _ (by positivity)
      have h2 : (2 : Nat) ^ 64 ≤ 2 ^ (7 * 10) := Nat.pow_le_pow_right (by norm_num) (by norm_num)
      omega)
    (by norm_num)
  simpa [encodeVarint, Nat.mod_mod_of_dvd] using h

/-! ## Lemmas: two's-complement reinterpretation -/

theorem intToU64_lt (i : Int) : intToU64 i < 2 ^ 64 := by
  unfold intToU64
  have h1 : (0 : Int) < 2 ^ 64 := by positivity
  have h2 : i % 2 ^ 64 < 2 ^ 64 := Int.emod_lt_of_pos i h1
  have h3 : 0 ≤ i % 2 ^ 64 := Int.emod_nonneg i (by positivity)
  omega

theorem toInt64_intToU64 (i : Int) (hlo : -(2 ^ 63) ≤ i) (hhi : i < 2 ^ 63) :
    toInt64 (intToU64 i) = i := by
  unfold toInt64 intToU64
  have h1 : (0 : Int) < 2 ^ 64 := by positivity
  have h3 : 0 ≤ i % 2 ^ 64 := Int.emod_nonneg i (by positivity)
  have h2 : i % 2 ^ 64 < 2 ^ 64 := Int.emod_lt_of_pos i h1
  by_cases hpos : 0 ≤ i
  · have hmod : i % 2 ^ 64 = i := Int.emod_eq_of_lt hpos (by omega)
    have htn : ((i % (2 ^ 64 : Int)).toNat : Int) = i := by rw [hmod]; omega
    have hlt : (i % (2 ^ 64 : Int)).toNat % 2 ^ 64 = (i % (2 ^ 64 : Int)).toNat := by
      apply Nat.mod_eq_of_lt
      omega
    rw [hlt]
    have hsm : ((i % (2 ^ 64 : Int)).toNat : Int) < 2 ^ 63 := by omega
    have : (i % (2 ^ 64 : Int)).toNat < 2 ^ 63 := by
      have := hsm
      omega
    rw [if_pos this, htn]
  · have hneg : i < 0 := by omega
    have hmod : i % 2 ^ 64 = i + 2 ^ 64 := by omega
    have htn : ((i % (2 ^ 64 : Int)).toNat : Int) = i + 2 ^ 64 := by rw [hmod]; omega
    have hlt : (i % (2 ^ 64 : Int)).toNat % 2 ^ 64 = (i % (2 ^ 64 : Int)).toNat := by
      apply Nat.mod_eq_of_lt
      omega
    rw [hlt]
    have hsm : ¬ ((i % (2 ^ 64 : Int)).toNat : Int) < 2 ^ 63 := by omega
    have : ¬ (i % (2 ^ 64 : Int)).toNat < 2 ^ 63 := by omega
    rw [if_neg this, htn]
    ring

theorem toInt64_bounds (n : Nat) : -(2 ^ 63) ≤ toInt64 n ∧ toInt64 n < 2 ^ 63 := by
  unfold toInt64
  have h : n % 2 ^ 64 < 2 ^ 64 := Nat.mod_lt _ (by positivity)
  by_cases hc : n % 2 ^ 64 < 2 ^ 63
  · rw [if_pos hc]
    constructor <;> omega
  · rw [if_neg hc]
    have h1 : (2 : Int) ^ 63 ≤ ((n % 2 ^ 64 : Nat) : Int) := by
      have : (2 : Nat) ^ 63 ≤ n % 2 ^ 64 := by omega
      exact_mod_cast this
    have h2 : ((n % 2 ^ 64 : Nat) : Int) < 2 ^ 64 := by exact_mod_cast h
    constructor <;> omega

theorem toInt32_intToU64_small (i : Int) (hlo : 0 ≤ i) (hhi : i < 2 ^ 31) :
    toInt32 (intToU64 i) = i := by
  unfold toInt32 intToU64
  have h64 : i < (2 : Int) ^ 64 := lt_trans hhi (by norm_num)
  have hmod : i % (2 : Int) ^ 64 = i := Int.emod_eq_of_lt hlo h64
  rw [hmod]
  have h1 : i.toNat < 2 ^ 31 := by omega
  have h2 : i.toNat % 2 ^ 32 = i.toNat := Nat.mod_eq_of_lt (by omega)
  rw [h2, if_pos h1]
  omega

/-! ## Lemmas: Reader primitives on encoded prefixes -/

theorem Reader.readVarint_encode (n : Nat) (rest : List Nat) :
    Reader.readVarint ⟨encodeVarint n ++ rest, .ok⟩ = (n % 2 ^ 64, ⟨rest, .ok⟩) := by
  unfold Reader.readVarint
  rw [readVarintAux_encodeVarint]
  simp

theorem Reader.readTag_encode (t : Nat) (rest : List Nat) (h1 : t ≠ 0) (h2 : t < 2 ^ 64) :
    Reader.readTag ⟨encodeVarint t ++ rest, .ok⟩ = (⟨t % 8, t / 8⟩, ⟨rest, .ok⟩) := by
  unfold Reader.readTag
  rw [readVarintAux_encodeVarint, Nat.mod_eq_of_lt h2]
  simp [h1]

theorem Reader.readString_encode (s rest : List Nat) (h : s.length < 2 ^ 64) :
    Reader.readString ⟨encodeVarint s.length ++ (s ++ rest), .ok⟩ = (s, ⟨rest, .ok⟩) := by
  unfold Reader.readString
  rw [readVarintAux_encodeVarint, Nat.mod_eq_of_lt h]
  have hnl : ¬ (s ++ rest).length < s.length := by simp
  simp only [ne_eq, reduceCtorEq, not_false_eq_true, if_neg hnl, List.take_left, List.drop_left]
  simp

theorem Reader.readNestedMessage_encode {α : Type} (dflt : α)
    (body : Reader → Except AbortReason (α × Reader)) (bs rest : List Nat) (msg : α)
    (st : Status) (hlen : bs.length < 2 ^ 64) (hbody : body ⟨bs, .ok⟩ = .ok (msg, ⟨[], st⟩)) :
    Reader.readNestedMessage ⟨encodeVarint bs.length ++ (bs ++ rest), .ok⟩ dflt body =
      .ok (msg, ⟨rest, st⟩) := by
  unfold Reader.readNestedMessage
  rw [readVarintAux_encodeVarint, Nat.mod_eq_of_lt hlen]
  have hnl : ¬ (bs ++ rest).length < bs.length := by simp
  simp only [ne_eq, reduceCtorEq, not_false_eq_true, if_neg hnl, List.take_left, List.drop_left]
  rw [hbody]
  simp

theorem Reader.readNestedMessage_encode_error {α : Type} (dflt : α)
    (body : Reader → Except AbortReason (α × Reader)) (bs rest : List Nat) (a : AbortReason)
    (hlen : bs.length < 2 ^ 64) (hbody : body ⟨bs, .ok⟩ = .error a) :
    Reader.readNestedMessage ⟨encodeVarint bs.length ++ (bs ++ rest), .ok⟩ dflt body =
      .error a := by
  unfold Reader.readNestedMessage
  rw [readVarintAux_encodeVarint, Nat.mod_eq_of_lt hlen]
  have hnl : ¬ (bs ++ rest).length < bs.length := by simp
  simp only [ne_eq, reduceCtorEq, not_false_eq_true, if_neg hnl, List.take_left, List.drop_left]
  rw [hbody]
  simp

/-! ## Lemmas: Writer primitives -/

theorem Writer.pbWrite_sizing (w : Writer) (bs : List Nat) (hs : w.sizing = true) :
    w.pbWrite bs = some { w with written := w.written + bs.length } := by
  unfold Writer.pbWrite
  rw [if_pos hs]

theorem Writer.pbWrite_real_ok (w : Writer) (bs : List Nat) (w' : Writer)
    (hs : w.sizing = false) (h : w.pbWrite bs = some w') :
    w' = { w with out := w.out ++ bs, written := w.written + bs.length } ∧
      w.written + bs.length ≤ w.maxSize := by
  unfold Writer.pbWrite at h
  rw [if_neg (by rw [hs]; simp)] at h
  by_cases hc : w.maxSize < w.written + bs.length
  · rw [if_pos hc] at h
    exact absurd h (by simp)
  · rw [if_neg hc] at h
    exact ⟨by injection h with h; exact h.symm, by omega⟩

theorem Writer.writeVarint_sizing (w : Writer) (value : Nat) (hs : w.sizing = true)
    (ho : w.status = .ok) :
    w.writeVarint value = .ok { w with written := w.written + (encodeVarint value).length } := by
  unfold Writer.writeVarint
  rw [if_neg (by rw [ho]; simp), Writer.pbWrite_sizing w _ hs]

theorem Writer.writeVarint_real_ok (w : Writer) (value : Nat) (w' : Writer)
    (hs : w.sizing = false) (ho : w.status = .ok) (h : w.writeVarint value = .ok w') :
    w' = { w with out := w.out ++ encodeVarint value,
                  written := w.written + (encodeVarint value).length } ∧
      w.written + (encodeVarint value).length ≤ w.maxSize := by
  unfold Writer.writeVarint at h
  rw [if_neg (by rw [ho]; simp)] at h
  cases hp : w.pbWrite (encodeVarint value) with
  | none => rw [hp] at h; exact absurd h (by simp)
  | some w2 =>
    rw [hp] at h
    injection h with h
    subst h
    exact Writer.pbWrite_real_ok w _ _ hs hp

theorem Writer.writeTag_sizing (w : Writer) (tag : Tag) (hs : w.sizing = true)
    (ho : w.status = .ok) :
    w.writeTag tag = .ok { w with
      written := w.written + (encodeVarint (tag.fieldNumber * 8 + tag.wireType)).length } := by
  unfold Writer.writeTag
  rw [if_neg (by rw [ho]; simp), Writer.pbWrite_sizing w _ hs]

theorem Writer.writeTag_real_ok (w : Writer) (tag : Tag) (w' : Writer)
    (hs : w.sizing = false) (ho : w.status = .ok) (h : w.writeTag tag = .ok w') :
    w' = { w with out := w.out ++ encodeVarint (tag.fieldNumber * 8 + tag.wireType),
                  written := w.written + (encodeVarint (tag.fieldNumber * 8 + tag.wireType)).length } ∧
      w.written + (encodeVarint (tag.fieldNumber * 8 + tag.wireType)).length ≤ w.maxSize := by
  unfold Writer.writeTag at h
  rw [if_neg (by rw [ho]; simp)] at h
  cases hp : w.pbWrite (encodeVarint (tag.fieldNumber * 8 + tag.wireType)) with
  | none => rw [hp] at h; exact absurd h (by simp)
  | some w2 =>
    rw [hp] at h
    injection h with h
    subst h
    exact Writer.pbWrite_real_ok w _ _ hs hp

theorem Writer.writeString_sizing (w : Writer) (s : List Nat) (hs : w.sizing = true)
    (ho : w.status = .ok) :
    w.writeString s = .ok { w with
      written := w.written + (encodeVarint s.length ++ s).length } := by
  unfold Writer.writeString
  rw [if_neg (by rw [ho]; simp), Writer.pbWrite_sizing w _ hs]

theorem Writer.writeString_real_ok (w : Writer) (s : List Nat) (w' : Writer)
    (hs : w.sizing = false) (ho : w.status = .ok) (h : w.writeString s = .ok w') :
    w' = { w with out := w.out ++ (encodeVarint s.length ++ s),
                  written := w.written + (encodeVarint s.length ++ s).length } ∧
      w.written + (encodeVarint s.length ++ s).length ≤ w.maxSize := by
  unfold Writer.writeString at h
  rw [if_neg (by rw [ho]; simp)] at h
  cases hp : w.pbWrite (encodeVarint s.length ++ s) with
  | none => rw [hp] at h; exact absurd h (by simp)
  | some w2 =>
    rw [hp] at h
    injection h with h
    subst h
    exact Writer.pbWrite_real_ok w _ _ hs hp

theorem exOkBind {ε α β : Type} (a : α) (f : α → Except ε β) :
    (Except.ok a : Except ε α) >>= f = f a := rfl

theorem exErrBind {ε α β : Type} (e : ε) (f : α → Except ε β) :
    (Except.error e : Except ε α) >>= f = Except.error e := rfl

theorem Writer.writeNestedMessage_sizing (w : Writer)
    (body : Writer → Except AbortReason Writer) (bodyLen : Nat)
    (hs : w.sizing = true) (ho : w.status = .ok)
    (hbody : body Writer.Sizing = .ok ⟨true, [], bodyLen, 0, .ok⟩) :
    w.writeNestedMessage body =
      .ok { w with written := w.written + ((encodeVarint bodyLen).length + bodyLen) } := by
  unfold Writer.writeNestedMessage
  rw [if_neg (by rw [ho]; simp), hbody, exOkBind]
  have h1 : (⟨true, [], bodyLen, 0, .ok⟩ : Writer).status ≠ .ok ↔ False := by simp
  rw [if_neg (by simp)]
  dsimp only
  rw [show Writer.writeSize w bodyLen = w.writeVarint bodyLen from rfl,
    Writer.writeVarint_sizing w bodyLen hs ho, exOkBind]
  rw [if_neg (by simp [ho]), if_pos (by simp [hs])]
  simp only [Nat.add_assoc]
  rfl

theorem Writer.writeNestedMessage_real_ok (w : Writer)
    (body : Writer → Except AbortReason Writer) (bodyBytes : List Nat) (w' : Writer)
    (hs : w.sizing = false) (ho : w.status = .ok)
    (hbodySize : body Writer.Sizing = .ok ⟨true, [], bodyBytes.length, 0, .ok⟩)
    (hbodyReal : ∀ sub sub', sub.sizing = false → sub.status = .ok → body sub = .ok sub' →
        sub' = { sub with out := sub.out ++ bodyBytes, written := sub.written + bodyBytes.length })
    (h : w.writeNestedMessage body = .ok w') :
    w' = { w with out := w.out ++ (encodeVarint bodyBytes.length ++ bodyBytes),
                  written := w.written + (encodeVarint bodyBytes.length ++ bodyBytes).length } ∧
      w.written + (encodeVarint bodyBytes.length ++ bodyBytes).length ≤ w.maxSize := by
  unfold Writer.writeNestedMessage at h
  rw [if_neg (by rw [ho]; simp), hbodySize, exOkBind, if_neg (by simp)] at h
  dsimp only at h
  rw [show Writer.writeSize w bodyBytes.length = w.writeVarint bodyBytes.length from rfl] at h
  cases hws : w.writeVarint bodyBytes.length with
  | error e => rw [hws, exErrBind] at h; exact absurd h (by simp)
  | ok w1 =>
    rw [hws, exOkBind] at h
    obtain ⟨hw1, hfit1⟩ := Writer.writeVarint_real_ok w bodyBytes.length w1 hs ho hws
    have hw1s : w1.sizing = false := by rw [hw1]; exact hs
    have hw1o : w1.status = .ok := by rw [hw1]; exact ho
    rw [if_neg (by rw [hw1o]; simp), if_neg (by rw [hw1s]; simp)] at h
    by_cases hmax : w1.maxSize < w1.written + bodyBytes.length
    · rw [if_pos hmax] at h
      exact absurd h (by simp)
    · rw [if_neg hmax] at h
      cases hb : body ⟨false, [], 0, bodyBytes.length, .ok⟩ with
      | error e => rw [hb, exErrBind] at h; exact absurd h (by simp)
      | ok sub =>
        rw [hb, exOkBind] at h
        have hsub := hbodyReal ⟨false, [], 0, bodyBytes.length, .ok⟩ sub rfl rfl hb
        have hsubo : sub.status = .ok := by rw [hsub]
        have hsubw : sub.written = bodyBytes.length := by rw [hsub]; simp
        have hsubout : sub.out = bodyBytes := by rw [hsub]; simp
        rw [if_neg (by rw [hsubo]; simp), if_neg (by rw [hsubw]; simp)] at h
        injection h with h
        subst h
        constructor
        · rw [hw1, hsubout, hsubw]
          simp [Nat.add_assoc]
        · have hmax1 : w1.maxSize = w.maxSize := by rw [hw1]
          have hwr1 : w1.written = w.written + (encodeVarint bodyBytes.length).length := by
            rw [hw1]
          simp only [List.length_append]
          omega

theorem encMapBody_entry (k : List Nat) (v : FieldValue) (rest : ObjMap) :
    encMapBody (.entry k v rest) =
      encodeVarint (MapValue_fields_tag * 8 + PB_WT_STRING) ++
        (encodeVarint (encEntry k v).length ++ encEntry k v) ++ encMapBody rest := rfl

/-! Literal-record forms of the Writer op lemmas: keeping every intermediate
writer a literal Writer.mk keeps all rewrites syntactic. -/

theorem Writer.writeVarint_sizing_mk (o : List Nat) (wr mx value : Nat) :
    (Writer.mk true o wr mx .ok).writeVarint value =
      .ok ⟨true, o, wr + (encodeVarint value).length, mx, .ok⟩ :=
  Writer.writeVarint_sizing _ _ rfl rfl

theorem Writer.writeTag_sizing_mk (o : List Nat) (wr mx wt fn : Nat) :
    (Writer.mk true o wr mx .ok).writeTag ⟨wt, fn⟩ =
      .ok ⟨true, o, wr + (encodeVarint (fn * 8 + wt)).length, mx, .ok⟩ :=
  Writer.writeTag_sizing _ _ rfl rfl

theorem Writer.writeString_sizing_mk (o : List Nat) (wr mx : Nat) (s : List Nat) :
    (Writer.mk true o wr mx .ok).writeString s =
      .ok ⟨true, o, wr + (encodeVarint s.length ++ s).length, mx, .ok⟩ :=
  Writer.writeString_sizing _ _ rfl rfl

theorem Writer.writeNestedMessage_sizing_mk (o : List Nat) (wr mx : Nat)
    (body : Writer → Except AbortReason Writer) (bodyLen : Nat)
    (hbody : body Writer.Sizing = .ok ⟨true, [], bodyLen, 0, .ok⟩) :
    (Writer.mk true o wr mx .ok).writeNestedMessage body =
      .ok ⟨true, o, wr + ((encodeVarint bodyLen).length + bodyLen), mx, .ok⟩ :=
  Writer.writeNestedMessage_sizing _ _ _ rfl rfl hbody

theorem Writer.writeVarint_real_mk (o : List Nat) (wr mx value : Nat) (w' : Writer)
    (h : (Writer.mk false o wr mx .ok).writeVarint value = .ok w') :
    w' = ⟨false, o ++ encodeVarint value, wr + (encodeVarint value).length, mx, .ok⟩ ∧
      wr + (encodeVarint value).length ≤ mx :=
  Writer.writeVarint_real_ok _ _ _ rfl rfl h

theorem Writer.writeTag_real_mk (o : List Nat) (wr mx wt fn : Nat) (w' : Writer)
    (h : (Writer.mk false o wr mx .ok).writeTag ⟨wt, fn⟩ = .ok w') :
    w' = ⟨false, o ++ encodeVarint (fn * 8 + wt), wr + (encodeVarint (fn * 8 + wt)).length, mx,
        .ok⟩ ∧
      wr + (encodeVarint (fn * 8 + wt)).length ≤ mx :=
  Writer.writeTag_real_ok _ _ _ rfl rfl h

theorem Writer.writeString_real_mk (o : List Nat) (wr mx : Nat) (s : List Nat) (w' : Writer)
    (h : (Writer.mk false o wr mx .ok).writeString s = .ok w') :
    w' = ⟨false, o ++ (encodeVarint s.length ++ s), wr + (encodeVarint s.length ++ s).length, mx,
        .ok⟩ ∧
      wr + (encodeVarint s.length ++ s).length ≤ mx :=
  Writer.writeString_real_ok _ _ _ rfl rfl h

theorem Writer.writeNestedMessage_real_mk (o : List Nat) (wr mx : Nat)
    (body : Writer → Except AbortReason Writer) (bodyBytes : List Nat) (w' : Writer)
    (hbodySize : body Writer.Sizing = .ok ⟨true, [], bodyBytes.length, 0, .ok⟩)
    (hbodyReal : ∀ (o2 : List Nat) (wr2 mx2 : Nat) (sub' : Writer),
        body ⟨false, o2, wr2, mx2, .ok⟩ = .ok sub' →
        sub' = ⟨false, o2 ++ bodyBytes, wr2 + bodyBytes.length, mx2, .ok⟩)
    (h : (Writer.mk false o wr mx .ok).writeNestedMessage body = .ok w') :
    w' = ⟨false, o ++ (encodeVarint bodyBytes.length ++ bodyBytes),
        wr + (encodeVarint bodyBytes.length ++ bodyBytes).length, mx, .ok⟩ ∧
      wr + (encodeVarint bodyBytes.length ++ bodyBytes).length ≤ mx := by
  have hgen := Writer.writeNestedMessage_real_ok ⟨false, o, wr, mx, .ok⟩ body bodyBytes w'
    rfl rfl hbodySize
    (by
      intro sub sub' hsub hosub hb
      cases sub with
      | mk s o2 wr2 mx2 st2 =>
        cases hsub
        cases hosub
        exact hbodyReal o2 wr2 mx2 sub' hb)
    h
  simpa using hgen

theorem encodeTimestampFields_sizing (sec nan : Int) (o : List Nat) (wr mx : Nat) :
    encodeTimestampFields sec nan ⟨true, o, wr, mx, .ok⟩ =
      .ok ⟨true, o, wr + (encTS sec nan).length, mx, .ok⟩ := by
  unfold encodeTimestampFields
  rw [if_neg (by simp), Writer.writeTag_sizing_mk, exOkBind, Writer.writeVarint_sizing_mk,
    exOkBind, Writer.writeTag_sizing_mk, exOkBind, Writer.writeVarint_sizing_mk]
  simp [encTS, Nat.add_assoc]

theorem encodeTimestampFields_real (sec nan : Int) (o : List Nat) (wr mx : Nat) (w' : Writer)
    (h : encodeTimestampFields sec nan ⟨false, o, wr, mx, .ok⟩ = .ok w') :
    w' = ⟨false, o ++ encTS sec nan, wr + (encTS sec nan).length, mx, .ok⟩ := by
  unfold encodeTimestampFields at h
  rw [if_neg (by simp)] at h
  cases h1 : (Writer.mk false o wr mx .ok).writeTag ⟨PB_WT_VARINT, Timestamp_seconds_tag⟩ with
  | error e => rw [h1, exErrBind] at h; exact absurd h (by simp)
  | ok w1 =>
    rw [h1, exOkBind] at h
    obtain ⟨hw1, -⟩ := Writer.writeTag_real_mk _ _ _ _ _ _ h1
    subst hw1
    cases h2 : (Writer.mk false (o ++ encodeVarint (Timestamp_seconds_tag * 8 + PB_WT_VARINT))
        (wr + (encodeVarint (Timestamp_seconds_tag * 8 + PB_WT_VARINT)).length) mx
        .ok).writeVarint (intToU64 sec) with
    | error e => rw [h2, exErrBind] at h; exact absurd h (by simp)
    | ok w2 =>
      rw [h2, exOkBind] at h
      obtain ⟨hw2, -⟩ := Writer.writeVarint_real_mk _ _ _ _ _ h2
      subst hw2
      cases h3 : Writer.writeTag _ ⟨PB_WT_VARINT, Timestamp_nanos_tag⟩ with
      | error e => rw [h3, exErrBind] at h; exact absurd h (by simp)
      | ok w3 =>
        rw [h3, exOkBind] at h
        obtain ⟨hw3, -⟩ := Writer.writeTag_real_mk _ _ _ _ _ _ h3
        subst hw3
        obtain ⟨hw4, -⟩ := Writer.writeVarint_real_mk _ _ _ _ _ h
        rw [hw4]
        simp [encTS, Nat.add_assoc, List.append_assoc]

mutual
theorem encodeFieldValueImpl_sizing (v : FieldValue) :
    ∀ (o : List Nat) (wr mx : Nat),
      encodeFieldValueImpl ⟨true, o, wr, mx, .ok⟩ v =
        .ok ⟨true, o, wr + (encFV v).length, mx, .ok⟩ := by
  cases v with
  | null =>
    intro o wr mx
    simp only [encodeFieldValueImpl, Writer.writeNull]
    rw [Writer.writeTag_sizing_mk, exOkBind, Writer.writeVarint_sizing_mk]
    simp [encFV, Nat.add_assoc]
  | boolean b =>
    intro o wr mx
    simp only [encodeFieldValueImpl, Writer.writeBool]
    rw [Writer.writeTag_sizing_mk, exOkBind, Writer.writeVarint_sizing_mk]
    simp [encFV, Nat.add_assoc]
  | integer i =>
    intro o wr mx
    simp only [encodeFieldValueImpl, Writer.writeInteger]
    rw [Writer.writeTag_sizing_mk, exOkBind, Writer.writeVarint_sizing_mk]
    simp [encFV, Nat.add_assoc]
  | str s =>
    intro o wr mx
    simp only [encodeFieldValueImpl]
    rw [Writer.writeTag_sizing_mk, exOkBind, Writer.writeString_sizing_mk]
    simp [encFV, Nat.add_assoc]
  | timestamp sec nan =>
    intro o wr mx
    simp only [encodeFieldValueImpl]
    rw [Writer.writeTag_sizing_mk, exOkBind,
      Writer.writeNestedMessage_sizing_mk _ _ _ _ (encTS sec nan).length
        (by simpa using encodeTimestampFields_sizing sec nan [] 0 0)]
    simp [encFV, Nat.add_assoc]
  | object m =>
    intro o wr mx
    simp only [encodeFieldValueImpl]
    rw [Writer.writeTag_sizing_mk, exOkBind,
      Writer.writeNestedMessage_sizing_mk _ _ _ _ (encMapBody m).length
        (by simpa using encodeEntries_sizing m [] 0 0)]
    simp [encFV, Nat.add_assoc]

theorem encodeEntries_sizing (m : ObjMap) :
    ∀ (o : List Nat) (wr mx : Nat),
      encodeEntries ⟨true, o, wr, mx, .ok⟩ m =
        .ok ⟨true, o, wr + (encMapBody m).length, mx, .ok⟩ := by
  cases m with
  | nil =>
    intro o wr mx
    simp only [encodeEntries, encMapBody, List.length_nil, Nat.add_zero]
    rfl
  | entry k v rest =>
    intro o wr mx
    simp only [encodeEntries]
    have hbody : (do
        let s1 ← Writer.Sizing.writeTag ⟨PB_WT_STRING, FieldsEntry_key_tag⟩
        let s2 ← s1.writeString k
        let s3 ← s2.writeTag ⟨PB_WT_STRING, FieldsEntry_value_tag⟩
        s3.writeNestedMessage fun sub2 => encodeFieldValueImpl sub2 v) =
        .ok ⟨true, [], (encEntry k v).length, 0, .ok⟩ := by
      show (do
        let s1 ← (Writer.mk true [] 0 0 .ok).writeTag ⟨PB_WT_STRING, FieldsEntry_key_tag⟩
        let s2 ← s1.writeString k
        let s3 ← s2.writeTag ⟨PB_WT_STRING, FieldsEntry_value_tag⟩
        s3.writeNestedMessage fun sub2 => encodeFieldValueImpl sub2 v) =
        .ok ⟨true, [], (encEntry k v).length, 0, .ok⟩
      rw [Writer.writeTag_sizing_mk, exOkBind, Writer.writeString_sizing_mk, exOkBind,
        Writer.writeTag_sizing_mk, exOkBind,
        Writer.writeNestedMessage_sizing_mk _ _ _ _ (encFV v).length
          (by simpa using encodeFieldValueImpl_sizing v [] 0 0)]
      simp [encEntry, Nat.add_assoc]
    rw [Writer.writeTag_sizing_mk, exOkBind,
      Writer.writeNestedMessage_sizing_mk _ _ _ _ (encEntry k v).length hbody, exOkBind,
      encodeEntries_sizing rest]
    simp [encMapBody_entry, Nat.add_assoc]
    rfl
end

mutual
theorem encodeFieldValueImpl_real (v : FieldValue) :
    ∀ (o : List Nat) (wr mx : Nat) (w' : Writer),
      encodeFieldValueImpl ⟨false, o, wr, mx, .ok⟩ v = .ok w' →
      w' = ⟨false, o ++ encFV v, wr + (encFV v).length, mx, .ok⟩ ∧
        wr + (encFV v).length ≤ mx := by
  cases v with
  | null =>
    intro o wr mx w' h
    simp only [encodeFieldValueImpl, Writer.writeNull] at h
    cases h1 : (Writer.mk false o wr mx .ok).writeTag ⟨PB_WT_VARINT, Value_null_value_tag⟩ with
    | error e => rw [h1, exErrBind] at h; exact absurd h (by simp)
    | ok w1 =>
      rw [h1, exOkBind] at h
      obtain ⟨hw1, -⟩ := Writer.writeTag_real_mk _ _ _ _ _ _ h1
      subst hw1
      obtain ⟨hw2, hfit⟩ := Writer.writeVarint_real_mk _ _ _ _ _ h
      rw [hw2]
      refine ⟨by simp [encFV, Nat.add_assoc], ?_⟩
      simp only [encFV, List.length_append]
      omega
  | boolean b =>
    intro o wr mx w' h
    simp only [encodeFieldValueImpl, Writer.writeBool] at h
    cases h1 : (Writer.mk false o wr mx .ok).writeTag ⟨PB_WT_VARINT, Value_boolean_value_tag⟩ with
    | error e => rw [h1, exErrBind] at h; exact absurd h (by simp)
    | ok w1 =>
      rw [h1, exOkBind] at h
      obtain ⟨hw1, -⟩ := Writer.writeTag_real_mk _ _ _ _ _ _ h1
      subst hw1
      obtain ⟨hw2, hfit⟩ := Writer.writeVarint_real_mk _ _ _ _ _ h
      rw [hw2]
      refine ⟨by simp [encFV, Nat.add_assoc], ?_⟩
      simp only [encFV, List.length_append]
      omega
  | integer i =>
    intro o wr mx w' h
    simp only [encodeFieldValueImpl, Writer.writeInteger] at h
    cases h1 : (Writer.mk false o wr mx .ok).writeTag ⟨PB_WT_VARINT, Value_integer_value_tag⟩ with
    | error e => rw [h1, exErrBind] at h; exact absurd h (by simp)
    | ok w1 =>
      rw [h1, exOkBind] at h
      obtain ⟨hw1, -⟩ := Writer.writeTag_real_mk _ _ _ _ _ _ h1
      subst hw1
      obtain ⟨hw2, hfit⟩ := Writer.writeVarint_real_mk _ _ _ _ _ h
      rw [hw2]
      refine ⟨by simp [encFV, Nat.add_assoc], ?_⟩
      simp only [encFV, List.length_append]
      omega
  | str s =>
    intro o wr mx w' h
    simp only [encodeFieldValueImpl] at h
    cases h1 : (Writer.mk false o wr mx .ok).writeTag ⟨PB_WT_STRING, Value_string_value_tag⟩ with
    | error e => rw [h1, exErrBind] at h; exact absurd h (by simp)
    | ok w1 =>
      rw [h1, exOkBind] at h
      obtain ⟨hw1, -⟩ := Writer.writeTag_real_mk _ _ _ _ _ _ h1
      subst hw1
      obtain ⟨hw2, hfit⟩ := Writer.writeString_real_mk _ _ _ _ _ h
      rw [hw2]
      refine ⟨by simp [encFV, Nat.add_assoc], ?_⟩
      simp only [encFV, List.length_append] at hfit ⊢
      omega
  | timestamp sec nan =>
    intro o wr mx w' h
    simp only [encodeFieldValueImpl] at h
    cases h1 : (Writer.mk false o wr mx .ok).writeTag ⟨PB_WT_STRING, Value_timestamp_value_tag⟩ with
    | error e => rw [h1, exErrBind] at h; exact absurd h (by simp)
    | ok w1 =>
      rw [h1, exOkBind] at h
      obtain ⟨hw1, -⟩ := Writer.writeTag_real_mk _ _ _ _ _ _ h1
      subst hw1
      obtain ⟨hw2, hfit⟩ := Writer.writeNestedMessage_real_mk _ _ _ _ (encTS sec nan) _
        (by simpa using encodeTimestampFields_sizing sec nan [] 0 0)
        (fun o2 wr2 mx2 sub' hb => encodeTimestampFields_real sec nan o2 wr2 mx2 sub' hb) h
      rw [hw2]
      refine ⟨by simp [encFV, Nat.add_assoc], ?_⟩
      simp only [encFV, List.length_append] at hfit ⊢
      omega
  | object m =>
    intro o wr mx w' h
    simp only [encodeFieldValueImpl] at h
    cases h1 : (Writer.mk false o wr mx .ok).writeTag ⟨PB_WT_STRING, Value_map_value_tag⟩ with
    | error e => rw [h1, exErrBind] at h; exact absurd h (by simp)
    | ok w1 =>
      rw [h1, exOkBind] at h
      obtain ⟨hw1, -⟩ := Writer.writeTag_real_mk _ _ _ _ _ _ h1
      subst hw1
      obtain ⟨hw2, hfit⟩ := Writer.writeNestedMessage_real_mk _ _ _ _ (encMapBody m) _
        (by simpa using encodeEntries_sizing m [] 0 0)
        (fun o2 wr2 mx2 sub' hb => (encodeEntries_real m o2 wr2 mx2 sub' hb).1) h
      rw [hw2]
      refine ⟨by simp [encFV, Nat.add_assoc], ?_⟩
      simp only [encFV, List.length_append] at hfit ⊢
      omega

theorem encodeEntries_real (m : ObjMap) :
    ∀ (o : List Nat) (wr mx : Nat) (w' : Writer),
      encodeEntries ⟨false, o, wr, mx, .ok⟩ m = .ok w' →
      w' = ⟨false, o ++ encMapBody m, wr + (encMapBody m).length, mx, .ok⟩ ∧ True := by
  cases m with
  | nil =>
    intro o wr mx w' h
    simp only [encodeEntries] at h
    refine ⟨?_, trivial⟩
    injection h with h
    rw [← h]
    simp [encMapBody]
  | entry k v rest =>
    intro o wr mx w' h
    simp only [encodeEntries] at h
    cases h1 : (Writer.mk false o wr mx .ok).writeTag ⟨PB_WT_STRING, FieldsEntry_key_tag⟩ with
    | error e => rw [h1, exErrBind] at h; exact absurd h (by simp)
    | ok w1 =>
      rw [h1, exOkBind] at h
      obtain ⟨hw1, -⟩ := Writer.writeTag_real_mk _ _ _ _ _ _ h1
      subst hw1
      have hbodySize : (fun sub => do
          let s1 ← Writer.writeTag sub ⟨PB_WT_STRING, FieldsEntry_key_tag⟩
          let s2 ← s1.writeString k
          let s3 ← s2.writeTag ⟨PB_WT_STRING, FieldsEntry_value_tag⟩
          s3.writeNestedMessage fun sub2 => encodeFieldValueImpl sub2 v) Writer.Sizing =
          .ok ⟨true, [], (encEntry k v).length, 0, .ok⟩ := by
        show (do
          let s1 ← (Writer.mk true [] 0 0 .ok).writeTag ⟨PB_WT_STRING, FieldsEntry_key_tag⟩
          let s2 ← s1.writeString k
          let s3 ← s2.writeTag ⟨PB_WT_STRING, FieldsEntry_value_tag⟩
          s3.writeNestedMessage fun sub2 => encodeFieldValueImpl sub2 v) =
          .ok ⟨true, [], (encEntry k v).length, 0, .ok⟩
        rw [Writer.writeTag_sizing_mk, exOkBind, Writer.writeString_sizing_mk, exOkBind,
          Writer.writeTag_sizing_mk, exOkBind,
          Writer.writeNestedMessage_sizing_mk _ _ _ _ (encFV v).length
            (by simpa using encodeFieldValueImpl_sizing v [] 0 0)]
        simp [encEntry, Nat.add_assoc]
      have hbodyReal : ∀ (o2 : List Nat) (wr2 mx2 : Nat) (sub' : Writer),
          (fun sub => do
            let s1 ← Writer.writeTag sub ⟨PB_WT_STRING, FieldsEntry_key_tag⟩
            let s2 ← s1.writeString k
            let s3 ← s2.writeTag ⟨PB_WT_STRING, FieldsEntry_value_tag⟩
            s3.writeNestedMessage fun sub2 => encodeFieldValueImpl sub2 v)
            ⟨false, o2, wr2, mx2, .ok⟩ = .ok sub' →
          sub' = ⟨false, o2 ++ encEntry k v, wr2 + (encEntry k v).length, mx2, .ok⟩ := by
        intro o2 wr2 mx2 sub' hb
        simp only at hb
        cases hb1 : (Writer.mk false o2 wr2 mx2 .ok).writeTag ⟨PB_WT_STRING, FieldsEntry_key_tag⟩
          with
        | error e => rw [hb1, exErrBind] at hb; exact absurd hb (by simp)
        | ok s1 =>
          rw [hb1, exOkBind] at hb
          obtain ⟨hs1, -⟩ := Writer.writeTag_real_mk _ _ _ _ _ _ hb1
          subst hs1
          cases hb2 : Writer.writeString _ k with
          | error e => rw [hb2, exErrBind] at hb; exact absurd hb (by simp)
          | ok s2 =>
            rw [hb2, exOkBind] at hb
            obtain ⟨hs2, -⟩ := Writer.writeString_real_mk _ _ _ _ _ hb2
            subst hs2
            cases hb3 : Writer.writeTag _ ⟨PB_WT_STRING, FieldsEntry_value_tag⟩ with
            | error e => rw [hb3, exErrBind] at hb; exact absurd hb (by simp)
            | ok s3 =>
              rw [hb3, exOkBind] at hb
              obtain ⟨hs3, -⟩ := Writer.writeTag_real_mk _ _ _ _ _ _ hb3
              subst hs3
              obtain ⟨hs4, -⟩ := Writer.writeNestedMessage_real_mk _ _ _ _ (encFV v) _
                (by simpa using encodeFieldValueImpl_sizing v [] 0 0)
                (fun o3 wr3 mx3 sub3 hb4 =>
                  (encodeFieldValueImpl_real v o3 wr3 mx3 sub3 hb4).1) hb
              rw [hs4]
              simp [encEntry, Nat.add_assoc]
      cases h2 : Writer.writeNestedMessage _ (fun sub => do
          let s1 ← Writer.writeTag sub ⟨PB_WT_STRING, FieldsEntry_key_tag⟩
          let s2 ← s1.writeString k
          let s3 ← s2.writeTag ⟨PB_WT_STRING, FieldsEntry_value_tag⟩
          s3.writeNestedMessage fun sub2 => encodeFieldValueImpl sub2 v) with
      | error e => rw [h2, exErrBind] at h; exact absurd h (by simp)
      | ok w2 =>
        rw [h2, exOkBind] at h
        obtain ⟨hw2, -⟩ := Writer.writeNestedMessage_real_mk _ _ _ _ (encEntry k v) _
          hbodySize hbodyReal h2
        subst hw2
        obtain ⟨hw3, -⟩ := encodeEntries_real rest _ _ _ _ h
        rw [hw3]
        refine ⟨?_, trivial⟩
        rw [encMapBody_entry,
          show encodeVarint (MapValue_fields_tag * 8 + PB_WT_STRING) =
            encodeVarint (FieldsEntry_key_tag * 8 + PB_WT_STRING) from rfl]
        simp [Nat.add_assoc, List.append_assoc, List.length_append]
end

/-! ## Lemmas: map bookkeeping -/

theorem ObjMap.hasKey_eq_keyInList : ∀ (m : ObjMap) (k : List Nat),
    m.hasKey k = keyInList k m.keys
  | .nil, _ => rfl
  | .entry k0 v0 rest, k => by
    simp [ObjMap.hasKey, ObjMap.keys, keyInList, ObjMap.hasKey_eq_keyInList rest k]

theorem ObjMap.keys_push : ∀ (m : ObjMap) (k : List Nat) (v : FieldValue),
    (m.push k v).keys = m.keys ++ [k]
  | .nil, _, _ => rfl
  | .entry k0 v0 rest, k, v => by
    simp [ObjMap.push, ObjMap.keys, ObjMap.keys_push rest k v]

theorem ObjMap.push_append : ∀ (acc : ObjMap) (k : List Nat) (v : FieldValue) (m2 : ObjMap),
    (acc.push k v).append m2 = acc.append (.entry k v m2)
  | .nil, _, _, _ => rfl
  | .entry k0 v0 rest, k, v, m2 => by
    simp [ObjMap.push, ObjMap.append, ObjMap.push_append rest k v m2]

theorem ObjMap.append_nil : ∀ m : ObjMap, m.append .nil = m
  | .nil => rfl
  | .entry k0 v0 rest => by simp [ObjMap.append, ObjMap.append_nil rest]

theorem ObjMap.clashes_congr : ∀ (m : ObjMap) (s1 s2 : List (List Nat)),
    (∀ x, keyInList x s1 = keyInList x s2) → m.clashes s1 = m.clashes s2
  | .nil, _, _, _ => rfl
  | .entry k v rest, s1, s2, hs => by
    simp only [ObjMap.clashes, hs k]
    congr 1
    exact ObjMap.clashes_congr rest (k :: s1) (k :: s2) fun x => by simp [keyInList, hs x]

theorem keyInList_snoc (x k : List Nat) : ∀ s : List (List Nat),
    keyInList x (s ++ [k]) = keyInList x (k :: s)
  | [] => rfl
  | a :: s => by
    simp only [List.cons_append, keyInList]
    cases h1 : a == x <;> cases h2 : k == x <;>
      simp [keyInList, keyInList_snoc x k s, h1, h2]

/-! ## Lemmas: tag reading in encoded form -/

theorem Reader.readTag_encodeTag (fn wt : Nat) (rest : List Nat) (h1 : fn * 8 + wt ≠ 0)
    (h2 : fn * 8 + wt < 2 ^ 64) (h3 : wt < 8) :
    Reader.readTag ⟨encodeVarint (fn * 8 + wt) ++ rest, .ok⟩ = (⟨wt, fn⟩, ⟨rest, .ok⟩) := by
  rw [Reader.readTag_encode _ _ h1 h2]
  have hm : (fn * 8 + wt) % 8 = wt := by omega
  have hd : (fn * 8 + wt) / 8 = fn := by omega
  rw [hm, hd]

/-! ## Lemmas: timestamp decode round trip -/

theorem readVarintAux_encodeVarint_nil (n : Nat) :
    readVarintAux 0 0 (encodeVarint n) = (some (n % 2 ^ 64), []) := by
  have := readVarintAux_encodeVarint n []
  simpa using this

theorem toInt64_mod_lit (n : Nat) : toInt64 (n % 18446744073709551616) = toInt64 n := by
  unfold toInt64
  rw [show (18446744073709551616 : Nat) = 2 ^ 64 from by norm_num,
    Nat.mod_mod_of_dvd n dvd_rfl]

theorem toInt32_mod_lit (n : Nat) : toInt32 (n % 18446744073709551616) = toInt32 n := by
  unfold toInt32
  rw [show (18446744073709551616 : Nat) = 2 ^ 64 from by norm_num,
    Nat.mod_mod_of_dvd n (by norm_num)]

theorem readTimestampProtoAux_encTS (sec nan : Int) (f : Nat) (hf : 3 ≤ f) :
    readTimestampProtoAux f 0 0 ⟨encTS sec nan, .ok⟩ =
      .ok ((toInt64 (intToU64 sec), toInt32 (intToU64 nan)), ⟨[], .ok⟩) := by
  obtain ⟨f1, rfl⟩ : ∃ f1, f = f1 + 3 := ⟨f - 3, by omega⟩
  have he : encTS sec nan =
      8 :: (encodeVarint (intToU64 sec) ++ (16 :: encodeVarint (intToU64 nan))) := by
    show encodeVarint (Timestamp_seconds_tag * 8 + PB_WT_VARINT) ++ encodeVarint (intToU64 sec) ++
        (encodeVarint (Timestamp_nanos_tag * 8 + PB_WT_VARINT) ++ encodeVarint (intToU64 nan)) =
      _
    rw [show encodeVarint (Timestamp_seconds_tag * 8 + PB_WT_VARINT) = [8] from rfl,
      show encodeVarint (Timestamp_nanos_tag * 8 + PB_WT_VARINT) = [16] from rfl]
    simp
  rw [he]
  simp [readTimestampProtoAux, readVarintAux, readVarintAux_encodeVarint,
    readVarintAux_encodeVarint_nil, Nat.mod_eq_of_lt (intToU64_lt sec),
    Nat.mod_eq_of_lt (intToU64_lt nan), Timestamp_seconds_tag, Timestamp_nanos_tag, PB_WT_VARINT,
    toInt64_mod_lit, toInt32_mod_lit]

theorem decodeTimestamp_encTS (sec nan : Int) (f : Nat) (hf : 3 ≤ f)
    (h1 : timestampMinSeconds ≤ sec) (h2 : sec ≤ timestampMaxSeconds)
    (h3 : 0 ≤ nan) (h4 : nan ≤ 999999999) :
    decodeTimestamp f ⟨encTS sec nan, .ok⟩ = .ok ((sec, nan), ⟨[], .ok⟩) := by
  have hsec : toInt64 (intToU64 sec) = sec := by
    apply toInt64_intToU64
    · have : -(2 ^ 63 : Int) ≤ timestampMinSeconds := by norm_num [timestampMinSeconds]
      omega
    · have : timestampMaxSeconds < (2 ^ 63 : Int) := by norm_num [timestampMaxSeconds]
      omega
  have hnan : toInt32 (intToU64 nan) = nan := by
    apply toInt32_intToU64_small _ h3
    have : (999999999 : Int) < 2 ^ 31 := by norm_num
    omega
  unfold decodeTimestamp
  rw [if_neg (by simp), readTimestampProtoAux_encTS sec nan f hf, exOkBind]
  dsimp only
  rw [hsec, hnan]
  rw [if_neg (by omega), if_neg (by omega), if_neg (by omega)]
  rfl

theorem Reader.readNestedMessage_encode_nil {α : Type} (dflt : α)
    (body : Reader → Except AbortReason (α × Reader)) (bs : List Nat) (msg : α)
    (st : Status) (hlen : bs.length < 2 ^ 64) (hbody : body ⟨bs, .ok⟩ = .ok (msg, ⟨[], st⟩)) :
    Reader.readNestedMessage ⟨encodeVarint bs.length ++ bs, .ok⟩ dflt body =
      .ok (msg, ⟨[], st⟩) := by
  have := Reader.readNestedMessage_encode dflt body bs [] msg st hlen hbody
  simpa using this

theorem exPure {ε α : Type} (a : α) : (pure a : Except ε α) = Except.ok a := rfl

/-! ## The decode round trip -/

mutual
theorem decodeFieldValueImpl_encFV (v : FieldValue) :
    ∀ (f : Nat) (rest : List Nat), FieldValue.validb v = true →
      (encFV v).length < 2 ^ 64 → (encFV v).length < f →
      decodeFieldValueImpl f ⟨encFV v ++ rest, .ok⟩ = .ok (v, ⟨rest, .ok⟩) := by
  cases v with
  | null =>
    intro f rest hval hsz hf
    obtain ⟨f1, rfl⟩ : ∃ f1, f = f1 + 1 := ⟨f - 1, by omega⟩
    simp only [decodeFieldValueImpl, encFV, List.append_assoc]
    rw [Reader.readTag_encodeTag _ _ _ (by decide) (by decide) (by decide)]
    simp [Value_null_value_tag, Value_boolean_value_tag, Value_integer_value_tag,
      Value_string_value_tag, Value_timestamp_value_tag, Value_map_value_tag,
      PB_WT_VARINT, PB_WT_STRING, Reader.readNull, Reader.readVarint_encode, exOkBind, exPure]
  | boolean b =>
    intro f rest hval hsz hf
    obtain ⟨f1, rfl⟩ : ∃ f1, f = f1 + 1 := ⟨f - 1, by omega⟩
    simp only [decodeFieldValueImpl, encFV, List.append_assoc]
    rw [Reader.readTag_encodeTag _ _ _ (by decide) (by decide) (by decide)]
    cases b <;>
      simp [Value_null_value_tag, Value_boolean_value_tag, Value_integer_value_tag,
        Value_string_value_tag, Value_timestamp_value_tag, Value_map_value_tag,
        PB_WT_VARINT, PB_WT_STRING, Reader.readBool, Reader.readVarint_encode, exOkBind, exPure]
  | integer i =>
    intro f rest hval hsz hf
    obtain ⟨f1, rfl⟩ : ∃ f1, f = f1 + 1 := ⟨f - 1, by omega⟩
    simp only [FieldValue.validb, Bool.and_eq_true, decide_eq_true_eq] at hval
    simp only [decodeFieldValueImpl, encFV, List.append_assoc]
    rw [Reader.readTag_encodeTag _ _ _ (by decide) (by decide) (by decide)]
    simp [Value_null_value_tag, Value_boolean_value_tag, Value_integer_value_tag,
      Value_string_value_tag, Value_timestamp_value_tag, Value_map_value_tag,
      PB_WT_VARINT, PB_WT_STRING, Reader.readInteger, Reader.readVarint_encode, exOkBind, exPure,
      Nat.mod_eq_of_lt (intToU64_lt i), toInt64_mod_lit,
      toInt64_intToU64 i hval.1 hval.2]
  | str s =>
    intro f rest hval hsz hf
    obtain ⟨f1, rfl⟩ : ∃ f1, f = f1 + 1 := ⟨f - 1, by omega⟩
    have hslt : s.length < 2 ^ 64 := by
      have h1 := one_le_length_encodeVarint (Value_string_value_tag * 8 + PB_WT_STRING)
      have h2 := one_le_length_encodeVarint s.length
      simp only [encFV, List.length_append] at hsz
      omega
    simp only [decodeFieldValueImpl, encFV, List.append_assoc]
    rw [Reader.readTag_encodeTag _ _ _ (by decide) (by decide) (by decide)]
    simp [Value_null_value_tag, Value_boolean_value_tag, Value_integer_value_tag,
      Value_string_value_tag, Value_timestamp_value_tag, Value_map_value_tag,
      PB_WT_VARINT, PB_WT_STRING, exOkBind, exPure, Reader.readString_encode s rest hslt]
  | timestamp sec nan =>
    intro f rest hval hsz hf
    obtain ⟨f1, rfl⟩ : ∃ f1, f = f1 + 1 := ⟨f - 1, by omega⟩
    simp only [FieldValue.validb, Bool.and_eq_true, decide_eq_true_eq] at hval
    obtain ⟨⟨⟨hv1, hv2⟩, hv3⟩, hv4⟩ := hval
    have hTlt : (encTS sec nan).length < 2 ^ 64 := by
      have h1 := one_le_length_encodeVarint (Value_timestamp_value_tag * 8 + PB_WT_STRING)
      have h2 := one_le_length_encodeVarint (encTS sec nan).length
      simp only [encFV, List.length_append] at hsz
      omega
    have hf3 : 3 ≤ f1 := by
      have h1 := one_le_length_encodeVarint (Value_timestamp_value_tag * 8 + PB_WT_STRING)
      have h2 := one_le_length_encodeVarint (encTS sec nan).length
      have h3 := one_le_length_encodeVarint (intToU64 sec)
      have h4 := one_le_length_encodeVarint (intToU64 nan)
      have h5 : (encTS sec nan).length =
          (encodeVarint (Timestamp_seconds_tag * 8 + PB_WT_VARINT)).length +
          (encodeVarint (intToU64 sec)).length +
          ((encodeVarint (Timestamp_nanos_tag * 8 + PB_WT_VARINT)).length +
            (encodeVarint (intToU64 nan)).length) := by
        simp [encTS, List.length_append, Nat.add_assoc]
      have h6 := one_le_length_encodeVarint (Timestamp_seconds_tag * 8 + PB_WT_VARINT)
      have h7 := one_le_length_encodeVarint (Timestamp_nanos_tag * 8 + PB_WT_VARINT)
      simp only [encFV, List.length_append] at hf
      omega
    simp only [decodeFieldValueImpl, encFV, List.append_assoc]
    rw [Reader.readTag_encodeTag _ _ _ (by decide) (by decide) (by decide)]
    simp [Value_null_value_tag, Value_boolean_value_tag, Value_integer_value_tag,
      Value_string_value_tag, Value_timestamp_value_tag, Value_map_value_tag,
      PB_WT_VARINT, PB_WT_STRING, exOkBind, exPure, -Prod.mk_zero_zero,
      Reader.readNestedMessage_encode ((0 : Int), (0 : Int)) (decodeTimestamp f1)
        (encTS sec nan) rest (sec, nan) .ok hTlt
        (decodeTimestamp_encTS sec nan f1 hf3 hv1 hv2 hv3 hv4)]
  | object m =>
    intro f rest hval hsz hf
    obtain ⟨f1, rfl⟩ : ∃ f1, f = f1 + 1 := ⟨f - 1, by omega⟩
    simp only [FieldValue.validb, Bool.and_eq_true, Bool.not_eq_eq_eq_not, Bool.not_true] at hval
    have hMlt : (encMapBody m).length < 2 ^ 64 := by
      have h1 := one_le_length_encodeVarint (Value_map_value_tag * 8 + PB_WT_STRING)
      have h2 := one_le_length_encodeVarint (encMapBody m).length
      simp only [encFV, List.length_append] at hsz
      omega
    obtain ⟨f2, rfl⟩ : ∃ f2, f1 = f2 + 1 := by
      refine ⟨f1 - 1, ?_⟩
      have h1 := one_le_length_encodeVarint (Value_map_value_tag * 8 + PB_WT_STRING)
      have h2 := one_le_length_encodeVarint (encMapBody m).length
      simp only [encFV, List.length_append] at hf
      omega
    have hloopf : (encMapBody m).length < f2 := by
      have h1 := one_le_length_encodeVarint (Value_map_value_tag * 8 + PB_WT_STRING)
      have h2 := one_le_length_encodeVarint (encMapBody m).length
      simp only [encFV, List.length_append] at hf
      omega
    have hbody : (fun sub =>
        if sub.status = Status.ok then decodeObjectLoop f2 ObjMap.nil sub
        else Except.ok (ObjMap.nil, sub)) (⟨encMapBody m, .ok⟩ : Reader) =
        .ok (m, ⟨[], .ok⟩) := by
      simp only [if_pos rfl]
      have := decodeObjectLoop_encMapBody m f2 ObjMap.nil hval.2 hMlt hloopf
        (by simpa [ObjMap.keys] using hval.1)
      simpa [ObjMap.append] using this
    simp only [decodeFieldValueImpl, encFV, List.append_assoc]
    rw [Reader.readTag_encodeTag _ _ _ (by decide) (by decide) (by decide)]
    simp [Value_null_value_tag, Value_boolean_value_tag, Value_integer_value_tag,
      Value_string_value_tag, Value_timestamp_value_tag, Value_map_value_tag,
      PB_WT_VARINT, PB_WT_STRING, exOkBind, exPure, decodeObject,
      Reader.readNestedMessage_encode ObjMap.nil
        (fun sub => if sub.status = Status.ok then decodeObjectLoop f2 ObjMap.nil sub
          else Except.ok (ObjMap.nil, sub))
        (encMapBody m) rest m .ok hMlt hbody]

theorem decodeObjectLoop_encMapBody (m : ObjMap) :
    ∀ (f : Nat) (acc : ObjMap), ObjMap.entriesValidb m = true →
      (encMapBody m).length < 2 ^ 64 → (encMapBody m).length < f →
      m.clashes acc.keys = false →
      decodeObjectLoop f acc ⟨encMapBody m, .ok⟩ = .ok (acc.append m, ⟨[], .ok⟩) := by
  cases m with
  | nil =>
    intro f acc _ _ hf _
    obtain ⟨f1, rfl⟩ : ∃ f1, f = f1 + 1 := ⟨f - 1, by omega⟩
    simp [decodeObjectLoop, encMapBody, ObjMap.append_nil]
  | entry k v m2 =>
    intro f acc hent hsz hf hcl
    simp only [ObjMap.entriesValidb, Bool.and_eq_true] at hent
    simp only [ObjMap.clashes, Bool.or_eq_false_iff] at hcl
    obtain ⟨f1, rfl⟩ : ∃ f1, f = f1 + 1 := ⟨f - 1, by omega⟩
    have hT1 := one_le_length_encodeVarint (MapValue_fields_tag * 8 + PB_WT_STRING)
    have hT2 := one_le_length_encodeVarint (encEntry k v).length
    simp only [encMapBody_entry, List.length_append] at hsz hf
    have hE1 := one_le_length_encodeVarint (FieldsEntry_key_tag * 8 + PB_WT_STRING)
    have hE2 := one_le_length_encodeVarint k.length
    have hE3 := one_le_length_encodeVarint (FieldsEntry_value_tag * 8 + PB_WT_STRING)
    have hE4 := one_le_length_encodeVarint (encFV v).length
    have hElen : (encEntry k v).length =
        (encodeVarint (FieldsEntry_key_tag * 8 + PB_WT_STRING)).length +
        ((encodeVarint k.length).length + k.length) +
        ((encodeVarint (FieldsEntry_value_tag * 8 + PB_WT_STRING)).length +
          ((encodeVarint (encFV v).length).length + (encFV v).length)) := by
      simp [encEntry, List.length_append, Nat.add_assoc]
    have hE64 : (encEntry k v).length < 2 ^ 64 := by omega
    have hk64 : k.length < 2 ^ 64 := by omega
    have hfv64 : (encFV v).length < 2 ^ 64 := by omega
    have hT64 : (encMapBody m2).length < 2 ^ 64 := by omega
    have hTf : (encMapBody m2).length < f1 := by omega
    have hf1pos : 1 ≤ f1 := by omega
    obtain ⟨g, rfl⟩ : ∃ g, f1 = g + 1 := ⟨f1 - 1, by omega⟩
    have hfvg : (encFV v).length < g := by omega
    have hentry : decodeFieldsEntry (g + 1) ⟨encEntry k v, .ok⟩ = .ok ((k, v), ⟨[], .ok⟩) := by
      have hv := decodeFieldValueImpl_encFV v g [] hent.1 hfv64 hfvg
      rw [List.append_nil] at hv
      simp only [decodeFieldsEntry, encEntry, List.append_assoc]
      rw [Reader.readTag_encodeTag _ _ _ (by decide) (by decide) (by decide)]
      simp [exOkBind, exPure,
        Reader.readString_encode k
          (encodeVarint (FieldsEntry_value_tag * 8 + PB_WT_STRING) ++
            (encodeVarint (encFV v).length ++ encFV v)) hk64,
        Reader.readTag_encodeTag FieldsEntry_value_tag PB_WT_STRING
          (encodeVarint (encFV v).length ++ encFV v) (by decide) (by decide) (by decide),
        Reader.readNestedMessage_encode_nil FieldValue.null (decodeFieldValueImpl g)
          (encFV v) v .ok hfv64 hv]
    have hclps : m2.clashes ((acc.push k v).keys) = false := by
      rw [ObjMap.keys_push,
        ObjMap.clashes_congr m2 (acc.keys ++ [k]) (k :: acc.keys)
          (fun x => keyInList_snoc x k acc.keys)]
      exact hcl.2
    have hloop := decodeObjectLoop_encMapBody m2 (g + 1) (acc.push k v) hent.2 hT64 hTf hclps
    have hkey : acc.hasKey k = false := by
      rw [ObjMap.hasKey_eq_keyInList]
      exact hcl.1
    have hne : encodeVarint (MapValue_fields_tag * 8 + PB_WT_STRING) ≠ [] :=
      encodeVarintAux_ne_nil 9 _
    rw [decodeObjectLoop]
    simp only [encMapBody_entry, List.append_assoc]
    rw [Reader.readTag_encodeTag _ _ _ (by decide) (by decide) (by decide)]
    simp [exOkBind, exPure, hkey, hloop, hne,
      ObjMap.push_append,
      Reader.readNestedMessage_encode (([], FieldValue.null)) (decodeFieldsEntry (g + 1))
        (encEntry k v) (encMapBody m2) (k, v) .ok hE64 hentry]
end

/-- Standalone form of the FieldsEntry decode step of the round trip. -/
theorem decodeFieldsEntry_encEntry (k : List Nat) (v : FieldValue) (g : Nat)
    (hval : FieldValue.validb v = true) (hk64 : k.length < 2 ^ 64)
    (hfv64 : (encFV v).length < 2 ^ 64) (hfvg : (encFV v).length < g) :
    decodeFieldsEntry (g + 1) ⟨encEntry k v, .ok⟩ = .ok ((k, v), ⟨[], .ok⟩) := by
  have hv := decodeFieldValueImpl_encFV v g [] hval hfv64 hfvg
  rw [List.append_nil] at hv
  simp only [decodeFieldsEntry, encEntry, List.append_assoc]
  rw [Reader.readTag_encodeTag _ _ _ (by decide) (by decide) (by decide)]
  simp [exOkBind, exPure,
    Reader.readString_encode k
      (encodeVarint (FieldsEntry_value_tag * 8 + PB_WT_STRING) ++
        (encodeVarint (encFV v).length ++ encFV v)) hk64,
    Reader.readTag_encodeTag FieldsEntry_value_tag PB_WT_STRING
      (encodeVarint (encFV v).length ++ encFV v) (by decide) (by decide) (by decide),
    Reader.readNestedMessage_encode_nil FieldValue.null (decodeFieldValueImpl g)
      (encFV v) v .ok hfv64 hv]

/-- When the remaining entries clash with a key already inserted or among
themselves, the DecodeObject loop hits the FIREBASE_ASSERT on the duplicate
key and aborts. -/
theorem decodeObjectLoop_encMapBody_dup (m : ObjMap) :
    ∀ (f : Nat) (acc : ObjMap), ObjMap.entriesValidb m = true →
      (encMapBody m).length < 2 ^ 64 → (encMapBody m).length < f →
      m.clashes acc.keys = true →
      decodeObjectLoop f acc ⟨encMapBody m, .ok⟩ = .error .duplicateKey := by
  cases m with
  | nil =>
    intro f acc _ _ _ hcl
    simp [ObjMap.clashes] at hcl
  | entry k v m2 =>
    intro f acc hent hsz hf hcl
    simp only [ObjMap.entriesValidb, Bool.and_eq_true] at hent
    simp only [ObjMap.clashes, Bool.or_eq_true] at hcl
    obtain ⟨f1, rfl⟩ : ∃ f1, f = f1 + 1 := ⟨f - 1, by omega⟩
    have hT1 := one_le_length_encodeVarint (MapValue_fields_tag * 8 + PB_WT_STRING)
    have hT2 := one_le_length_encodeVarint (encEntry k v).length
    simp only [encMapBody_entry, List.length_append] at hsz hf
    have hE1 := one_le_length_encodeVarint (FieldsEntry_key_tag * 8 + PB_WT_STRING)
    have hE2 := one_le_length_encodeVarint k.length
    have hE3 := one_le_length_encodeVarint (FieldsEntry_value_tag * 8 + PB_WT_STRING)
    have hE4 := one_le_length_encodeVarint (encFV v).length
    have hElen : (encEntry k v).length =
        (encodeVarint (FieldsEntry_key_tag * 8 + PB_WT_STRING)).length +
        ((encodeVarint k.length).length + k.length) +
        ((encodeVarint (FieldsEntry_value_tag * 8 + PB_WT_STRING)).length +
          ((encodeVarint (encFV v).length).length + (encFV v).length)) := by
      simp [encEntry, List.length_append, Nat.add_assoc]
    have hE64 : (encEntry k v).length < 2 ^ 64 := by omega
    have hk64 : k.length < 2 ^ 64 := by omega
    have hfv64 : (encFV v).length < 2 ^ 64 := by omega
    have hT64 : (encMapBody m2).length < 2 ^ 64 := by omega
    have hTf : (encMapBody m2).length < f1 := by omega
    obtain ⟨g, rfl⟩ : ∃ g, f1 = g + 1 := ⟨f1 - 1, by omega⟩
    have hfvg : (encFV v).length < g := by omega
    have hentry := decodeFieldsEntry_encEntry k v g hent.1 hk64 hfv64 hfvg
    have hne : encodeVarint (MapValue_fields_tag * 8 + PB_WT_STRING) ≠ [] :=
      encodeVarintAux_ne_nil 9 _
    rw [decodeObjectLoop]
    simp only [encMapBody_entry, List.append_assoc]
    rw [Reader.readTag_encodeTag _ _ _ (by decide) (by decide) (by decide)]
    cases hkk : acc.hasKey k with
    | true =>
      simp [exOkBind, exPure, hkk, hne,
        Reader.readNestedMessage_encode (([], FieldValue.null)) (decodeFieldsEntry (g + 1))
          (encEntry k v) (encMapBody m2) (k, v) .ok hE64 hentry]
    | false =>
      have hkl : keyInList k acc.keys = false := by
        rw [← ObjMap.hasKey_eq_keyInList]
        exact hkk
      have hcl2 : m2.clashes (k :: acc.keys) = true := by
        rcases hcl with h | h
        · rw [hkl] at h
          exact absurd h (by simp)
        · exact h
      have hclps : m2.clashes ((acc.push k v).keys) = true := by
        rw [ObjMap.keys_push,
          ObjMap.clashes_congr m2 (acc.keys ++ [k]) (k :: acc.keys)
            (fun x => keyInList_snoc x k acc.keys)]
        exact hcl2
      have hloop := decodeObjectLoop_encMapBody_dup m2 (g + 1) (acc.push k v) hent.2 hT64 hTf
        hclps
      simp [exOkBind, exPure, hkk, hloop, hne,
        Reader.readNestedMessage_encode (([], FieldValue.null)) (decodeFieldsEntry (g + 1))
          (encEntry k v) (encMapBody m2) (k, v) .ok hE64 hentry]

/-- Decoding the encoding of an object whose key list has a clash runs into
the duplicate-key assertion. -/
theorem decodeFieldValueImpl_encFV_dup (m : ObjMap) (f2 : Nat) (rest : List Nat)
    (hent : ObjMap.entriesValidb m = true) (hdup : m.clashes [] = true)
    (hsz : (encFV (.object m)).length < 2 ^ 64)
    (hf : (encMapBody m).length < f2) :
    decodeFieldValueImpl (f2 + 1 + 1) ⟨encFV (.object m) ++ rest, .ok⟩ =
      .error .duplicateKey := by
  have hMlt : (encMapBody m).length < 2 ^ 64 := by
    have h1 := one_le_length_encodeVarint (Value_map_value_tag * 8 + PB_WT_STRING)
    have h2 := one_le_length_encodeVarint (encMapBody m).length
    simp only [encFV, List.length_append] at hsz
    omega
  have hbody : (fun sub =>
      if sub.status = Status.ok then decodeObjectLoop f2 ObjMap.nil sub
      else Except.ok (ObjMap.nil, sub)) (⟨encMapBody m, .ok⟩ : Reader) =
      .error .duplicateKey := by
    simp only [if_pos rfl]
    exact decodeObjectLoop_encMapBody_dup m f2 ObjMap.nil hent hMlt hf
      (by simpa [ObjMap.keys] using hdup)
  simp only [decodeFieldValueImpl, encFV, List.append_assoc]
  rw [Reader.readTag_encodeTag _ _ _ (by decide) (by decide) (by decide)]
  simp [Value_null_value_tag, Value_boolean_value_tag, Value_integer_value_tag,
    Value_string_value_tag, Value_timestamp_value_tag, Value_map_value_tag,
    PB_WT_VARINT, PB_WT_STRING, exOkBind, exPure, decodeObject,
    Reader.readNestedMessage_encode_error ObjMap.nil
      (fun sub => if sub.status = Status.ok then decodeObjectLoop f2 ObjMap.nil sub
        else Except.ok (ObjMap.nil, sub))
      (encMapBody m) rest .duplicateKey hMlt hbody]
  rfl

/-! ## Decoded values satisfy the domain invariants -/

theorem exBindOk {ε α β : Type} {x : Except ε α} {k : α → Except ε β} {b : β}
    (h : (x >>= k) = .ok b) : ∃ a, x = .ok a ∧ k a = .ok b := by
  cases x with
  | error e => rw [exErrBind] at h; exact absurd h (by simp)
  | ok a => exact ⟨a, rfl, h⟩

theorem Reader.readNestedMessage_ok_cases {α : Type} (P : α → Prop) (r : Reader) (dflt : α)
    (body : Reader → Except AbortReason (α × Reader)) (msg : α) (r' : Reader)
    (h : r.readNestedMessage dflt body = .ok (msg, r'))
    (hd : P dflt)
    (hb : ∀ sub msg' sub', body sub = .ok (msg', sub') → P msg') :
    P msg := by
  unfold Reader.readNestedMessage at h
  split at h
  · simp only [Except.ok.injEq, Prod.mk.injEq] at h
    exact h.1 ▸ hd
  · rcases hv : readVarintAux 0 0 r.input with ⟨_ | size, rest⟩
    · rw [hv] at h
      dsimp only at h
      simp only [Except.ok.injEq, Prod.mk.injEq] at h
      exact h.1 ▸ hd
    · rw [hv] at h
      dsimp only at h
      split at h
      · simp only [Except.ok.injEq, Prod.mk.injEq] at h
        exact h.1 ▸ hd
      · rcases hbody : body ⟨rest.take size, .ok⟩ with e | ⟨msg', sub⟩
        · rw [hbody] at h
          exact absurd h (by simp)
        · rw [hbody] at h
          dsimp only at h
          split at h
          · exact absurd h (by simp)
          · simp only [Except.ok.injEq, Prod.mk.injEq] at h
            exact h.1 ▸ hb _ _ _ hbody

theorem timestampCheck_valid (sec nan : Int) (r0 : Reader) (s n : Int) (r' : Reader)
    (h : (if sec < timestampMinSeconds then
            (pure (((0 : Int), (0 : Int)), (⟨r0.input, Status.dataLoss⟩ : Reader)) :
              Except AbortReason ((Int × Int) × Reader))
          else if timestampMaxSeconds < sec then pure ((0, 0), ⟨r0.input, Status.dataLoss⟩)
          else if nan < 0 ∨ 999999999 < nan then pure ((0, 0), ⟨r0.input, Status.dataLoss⟩)
          else pure ((sec, nan), r0)) = .ok ((s, n), r')) :
    FieldValue.validb (.timestamp s n) = true := by
  split at h
  · simp only [exPure, Except.ok.injEq, Prod.mk.injEq] at h
    obtain ⟨⟨h1, h2⟩, -⟩ := h
    rw [← h1, ← h2]
    decide
  · split at h
    · simp only [exPure, Except.ok.injEq, Prod.mk.injEq] at h
      obtain ⟨⟨h1, h2⟩, -⟩ := h
      rw [← h1, ← h2]
      decide
    · split at h
      · simp only [exPure, Except.ok.injEq, Prod.mk.injEq] at h
        obtain ⟨⟨h1, h2⟩, -⟩ := h
        rw [← h1, ← h2]
        decide
      · simp only [exPure, Except.ok.injEq, Prod.mk.injEq] at h
        obtain ⟨⟨h1, h2⟩, -⟩ := h
        rw [← h1, ← h2]
        rename_i hc1 hc2 hc3
        push_neg at hc3
        simp only [FieldValue.validb, Bool.and_eq_true, decide_eq_true_eq]
        exact ⟨⟨⟨not_lt.mp hc1, not_lt.mp hc2⟩, hc3.1⟩, hc3.2⟩

theorem decodeTimestamp_valid (f : Nat) (r : Reader) (s n : Int) (r' : Reader)
    (h : decodeTimestamp f r = .ok ((s, n), r')) :
    FieldValue.validb (.timestamp s n) = true := by
  unfold decodeTimestamp at h
  dsimp only at h
  split at h
  · rw [exPure, exOkBind] at h
    dsimp only at h
    exact timestampCheck_valid 0 0 r s n r' h
  · obtain ⟨p, -, h⟩ := exBindOk h
    try dsimp only at h
    exact timestampCheck_valid p.1.1 p.1.2 p.2 s n r' h

theorem ObjMap.clashes_push_false : ∀ (acc : ObjMap) (seen : List (List Nat)) (k : List Nat)
    (v : FieldValue), acc.clashes seen = false → keyInList k seen = false →
    acc.hasKey k = false → (acc.push k v).clashes seen = false
  | .nil, seen, k, v => by
    intro h1 h2 h3
    simp [ObjMap.push, ObjMap.clashes, h2]
  | .entry k0 v0 rest, seen, k, v => by
    intro h1 h2 h3
    simp only [ObjMap.push, ObjMap.clashes, Bool.or_eq_false_iff] at h1 ⊢
    simp only [ObjMap.hasKey, Bool.or_eq_false_iff] at h3
    refine ⟨h1.1, ObjMap.clashes_push_false rest (k0 :: seen) k v h1.2 ?_ h3.2⟩
    simp [keyInList, h2, h3.1]

theorem ObjMap.entriesValidb_push : ∀ (acc : ObjMap) (k : List Nat) (v : FieldValue),
    (acc.push k v).entriesValidb = (v.validb && acc.entriesValidb)
  | .nil, k, v => by simp [ObjMap.push, ObjMap.entriesValidb]
  | .entry k0 v0 rest, k, v => by
    simp only [ObjMap.push, ObjMap.entriesValidb, ObjMap.entriesValidb_push rest k v]
    cases v0.validb <;> cases v.validb <;> simp

theorem decodeDispatch_valid (f : Nat) (tag : Tag) (r2 : Reader) (v : FieldValue) (r' : Reader)
    (hobjv : ∀ rr m rr', decodeObject f rr = .ok (m, rr') →
      m.clashes [] = false ∧ m.entriesValidb = true)
    (h : (if r2.status ≠ Status.ok then pure (FieldValue.null, r2)
          else if tag.fieldNumber = Value_null_value_tag then pure (FieldValue.null, r2.readNull)
          else if tag.fieldNumber = Value_boolean_value_tag then
            pure (FieldValue.boolean r2.readBool.1, r2.readBool.2)
          else if tag.fieldNumber = Value_integer_value_tag then
            pure (FieldValue.integer r2.readInteger.1, r2.readInteger.2)
          else if tag.fieldNumber = Value_string_value_tag then
            pure (FieldValue.str r2.readString.1, r2.readString.2)
          else if tag.fieldNumber = Value_timestamp_value_tag then do
            let p ← r2.readNestedMessage ((0 : Int), (0 : Int)) (decodeTimestamp f)
            pure (FieldValue.timestamp p.1.1 p.1.2, p.2)
          else if tag.fieldNumber = Value_map_value_tag then do
            let p ← decodeObject f r2
            pure (FieldValue.object p.1, p.2)
          else (Except.error AbortReason.internalError :
            Except AbortReason (FieldValue × Reader))) = .ok (v, r')) :
    v.validb = true := by
  by_cases h2 : r2.status ≠ Status.ok
  · rw [if_pos h2] at h
    simp only [exPure, Except.ok.injEq, Prod.mk.injEq] at h
    rw [← h.1]
    rfl
  · rw [if_neg h2] at h
    by_cases hfn1 : tag.fieldNumber = Value_null_value_tag
    · rw [if_pos hfn1] at h
      simp only [exPure, Except.ok.injEq, Prod.mk.injEq] at h
      rw [← h.1]
      rfl
    · rw [if_neg hfn1] at h
      by_cases hfn2 : tag.fieldNumber = Value_boolean_value_tag
      · rw [if_pos hfn2] at h
        simp only [exPure, Except.ok.injEq, Prod.mk.injEq] at h
        rw [← h.1]
        rfl
      · rw [if_neg hfn2] at h
        by_cases hfn3 : tag.fieldNumber = Value_integer_value_tag
        · rw [if_pos hfn3] at h
          simp only [exPure, Except.ok.injEq, Prod.mk.injEq] at h
          rw [← h.1]
          simp only [FieldValue.validb, Bool.and_eq_true, decide_eq_true_eq]
          exact ⟨(toInt64_bounds _).1, (toInt64_bounds _).2⟩
        · rw [if_neg hfn3] at h
          by_cases hfn4 : tag.fieldNumber = Value_string_value_tag
          · rw [if_pos hfn4] at h
            simp only [exPure, Except.ok.injEq, Prod.mk.injEq] at h
            rw [← h.1]
            rfl
          · rw [if_neg hfn4] at h
            by_cases hfn5 : tag.fieldNumber = Value_timestamp_value_tag
            · rw [if_pos hfn5] at h
              obtain ⟨p, hnm, h⟩ := exBindOk h
              try dsimp only at h
              simp only [exPure, Except.ok.injEq, Prod.mk.injEq] at h
              rw [← h.1]
              exact Reader.readNestedMessage_ok_cases
                (fun q => FieldValue.validb (.timestamp q.1 q.2) = true) r2
                ((0 : Int), (0 : Int)) (decodeTimestamp f) p.1 p.2 hnm (by decide)
                (fun sub msg' sub' hb => decodeTimestamp_valid f sub msg'.1 msg'.2 sub' hb)
            · rw [if_neg hfn5] at h
              by_cases hfn6 : tag.fieldNumber = Value_map_value_tag
              · rw [if_pos hfn6] at h
                obtain ⟨p, hobj, h⟩ := exBindOk h
                try dsimp only at h
                simp only [exPure, Except.ok.injEq, Prod.mk.injEq] at h
                rw [← h.1]
                have hv := hobjv r2 p.1 p.2 hobj
                simp only [FieldValue.validb, Bool.and_eq_true, Bool.not_eq_true']
                exact ⟨hv.1, hv.2⟩
              · rw [if_neg hfn6] at h
                exact absurd h (by simp)

mutual
/-- Any value DecodeFieldValueImpl returns satisfies the domain invariants:
integers are in int64 range, timestamps are range checked, object keys are
unique (a duplicate would have aborted). -/
theorem decodeFieldValueImpl_valid : ∀ (f : Nat) (r : Reader) (v : FieldValue) (r' : Reader),
    decodeFieldValueImpl f r = .ok (v, r') → v.validb = true
  | 0, r, v, r' => by
    intro h
    rw [decodeFieldValueImpl] at h
    exact absurd h (by simp)
  | f + 1, r, v, r' => by
    intro h
    rcases htag : r.readTag with ⟨tag, r1⟩
    rw [decodeFieldValueImpl, htag] at h
    try dsimp only at h
    by_cases hst : r1.status ≠ Status.ok
    · rw [if_pos hst] at h
      simp only [Except.ok.injEq, Prod.mk.injEq] at h
      rw [← h.1]
      rfl
    · rw [if_neg hst] at h
      by_cases hA : (tag.fieldNumber = Value_null_value_tag ∨
          tag.fieldNumber = Value_boolean_value_tag ∨
          tag.fieldNumber = Value_integer_value_tag)
      · rw [if_pos hA, exPure, exOkBind] at h
        try dsimp only at h
        exact decodeDispatch_valid f tag _ v r'
          (fun rr m rr' hh => decodeObject_valid f rr m rr' hh) h
      · rw [if_neg hA] at h
        by_cases hB : (tag.fieldNumber = Value_string_value_tag ∨
            tag.fieldNumber = Value_timestamp_value_tag ∨
            tag.fieldNumber = Value_map_value_tag)
        · rw [if_pos hB, exPure, exOkBind] at h
          try dsimp only at h
          exact decodeDispatch_valid f tag _ v r'
            (fun rr m rr' hh => decodeObject_valid f rr m rr' hh) h
        · rw [if_neg hB, exErrBind] at h
          exact absurd h (by simp)

/-- Any map DecodeObject returns has pairwise distinct keys and valid values. -/
theorem decodeObject_valid : ∀ (f : Nat) (r : Reader) (m : ObjMap) (r' : Reader),
    decodeObject f r = .ok (m, r') → m.clashes [] = false ∧ m.entriesValidb = true
  | 0, r, m, r' => by
    intro h
    rw [decodeObject] at h
    exact absurd h (by simp)
  | f + 1, r, m, r' => by
    intro h
    rw [decodeObject] at h
    split at h
    · simp only [Except.ok.injEq, Prod.mk.injEq] at h
      rw [← h.1]
      exact ⟨rfl, rfl⟩
    · refine Reader.readNestedMessage_ok_cases
        (fun q => q.clashes [] = false ∧ q.entriesValidb = true) r .nil _ m r' h ⟨rfl, rfl⟩ ?_
      intro sub msg' sub' hbody
      try dsimp only at hbody
      split at hbody
      · simp only [Except.ok.injEq, Prod.mk.injEq] at hbody
        rw [← hbody.1]
        exact ⟨rfl, rfl⟩
      · exact decodeObjectLoop_valid f .nil sub msg' sub' hbody rfl rfl

/-- The loop of DecodeObject preserves key distinctness and value validity of
the accumulated map. -/
theorem decodeObjectLoop_valid : ∀ (f : Nat) (acc : ObjMap) (r : Reader) (m : ObjMap)
    (r' : Reader), decodeObjectLoop f acc r = .ok (m, r') → acc.clashes [] = false →
    acc.entriesValidb = true → m.clashes [] = false ∧ m.entriesValidb = true
  | 0, acc, r, m, r' => by
    intro h hc he
    rw [decodeObjectLoop] at h
    exact absurd h (by simp)
  | f + 1, acc, r, m, r' => by
    intro h hc he
    rw [decodeObjectLoop] at h
    try dsimp only at h
    split at h
    · simp only [Except.ok.injEq, Prod.mk.injEq] at h
      rw [← h.1]
      exact ⟨hc, he⟩
    · split at h
      · simp only [Except.ok.injEq, Prod.mk.injEq] at h
        rw [← h.1]
        exact ⟨hc, he⟩
      · split at h
        · exact absurd h (by simp)
        · split at h
          · exact absurd h (by simp)
          · obtain ⟨p, hnm, h⟩ := exBindOk h
            try dsimp only at h
            split at h
            · simp only [exPure, Except.ok.injEq, Prod.mk.injEq] at h
              rw [← h.1]
              exact ⟨hc, he⟩
            · split at h
              · exact absurd h (by simp)
              · rename_i hknot
                have hk : acc.hasKey p.1.1 = false := by
                  revert hknot
                  cases acc.hasKey p.1.1 <;> simp
                have hv : p.1.2.validb = true :=
                  Reader.readNestedMessage_ok_cases (fun kv => kv.2.validb = true) _
                    (([], FieldValue.null)) (decodeFieldsEntry f) p.1 p.2 hnm rfl
                    (fun sub msg' sub' hb => decodeFieldsEntry_valid f sub msg' sub' hb)
                refine decodeObjectLoop_valid f (acc.push p.1.1 p.1.2) p.2 m r' h ?_ ?_
                · exact ObjMap.clashes_push_false acc [] p.1.1 p.1.2 hc rfl hk
                · rw [ObjMap.entriesValidb_push, hv, he]
                  rfl

/-- Any value DecodeFieldsEntry returns is valid. -/
theorem decodeFieldsEntry_valid : ∀ (f : Nat) (r : Reader) (kv : List Nat × FieldValue)
    (r' : Reader), decodeFieldsEntry f r = .ok (kv, r') → kv.2.validb = true
  | 0, r, kv, r' => by
    intro h
    rw [decodeFieldsEntry] at h
    exact absurd h (by simp)
  | f + 1, r, kv, r' => by
    intro h
    rw [decodeFieldsEntry] at h
    try dsimp only at h
    split at h
    · simp only [Except.ok.injEq, Prod.mk.injEq] at h
      rw [← h.1]
      rfl
    · split at h
      · exact absurd h (by simp)
      · split at h
        · exact absurd h (by simp)
        · split at h
          · simp only [Except.ok.injEq, Prod.mk.injEq] at h
            rw [← h.1]
            rfl
          · split at h
            · exact absurd h (by simp)
            · split at h
              · exact absurd h (by simp)
              · obtain ⟨p, hnm, h⟩ := exBindOk h
                try dsimp only at h
                simp only [exPure, Except.ok.injEq, Prod.mk.injEq] at h
                rw [← h.1]
                exact Reader.readNestedMessage_ok_cases (fun w => FieldValue.validb w = true) _
                  FieldValue.null (decodeFieldValueImpl f) p.1 p.2 hnm rfl
                  (fun sub msg' sub' hb => decodeFieldValueImpl_valid f sub msg' sub' hb)
end

/-- Facade form: whenever DecodeFieldValue returns a value, that value
satisfies all domain invariants. -/
theorem Serializer.decodeFieldValue_valid (bytes : List Nat) (v : FieldValue)
    (h : Serializer.decodeFieldValue bytes = .value v) : FieldValue.validb v = true := by
  unfold Serializer.decodeFieldValue at h
  rcases hd : decodeFieldValueImpl (2 * bytes.length + 2) ⟨bytes, .ok⟩ with e | p
  · rw [hd] at h
    exact absurd h (by simp)
  · rw [hd] at h
    dsimp only at h
    split at h
    · simp only [DecodeResult.value.injEq] at h
      rw [← h]
      exact decodeFieldValueImpl_valid _ _ p.1 p.2 hd
    · exact absurd h (by simp)

/-! ## Key codec: splitting inverts joining -/

theorem splitSlash_ne_nil : ∀ l : List Char, splitSlash l ≠ []
  | [] => by simp [splitSlash]
  | c :: rest => by
    simp only [splitSlash]
    split
    · simp
    · split <;> simp

theorem splitSlash_no_slash : ∀ a : List Char, '/' ∉ a → splitSlash a = [a]
  | [], _ => rfl
  | c :: rest, h => by
    have hc : c ≠ '/' := fun hh => h (by simp [hh])
    have hr : splitSlash rest = [rest] := splitSlash_no_slash rest fun hh => h (by simp [hh])
    simp [splitSlash, hr, hc]

theorem splitSlash_append : ∀ s t : List Char, '/' ∉ s →
    splitSlash (s ++ '/' :: t) = s :: splitSlash t
  | [], t, _ => by
    simp only [List.nil_append, splitSlash]
    cases hs : splitSlash t with
    | nil => exact absurd hs (splitSlash_ne_nil t)
    | cons seg segs => simp
  | c :: s, t, h => by
    have hc : c ≠ '/' := fun hh => h (by simp [hh])
    have hr := splitSlash_append s t fun hh => h (by simp [hh])
    simp [splitSlash, hr, hc]

theorem splitSlash_canonicalString : ∀ segs : List (List Char), segs ≠ [] →
    (∀ x ∈ segs, '/' ∉ x) → splitSlash (canonicalString segs) = segs
  | [], hne, _ => absurd rfl hne
  | [a], _, hns => by
    have : canonicalString [a] = a := by simp [canonicalString, List.intercalate]
    rw [this, splitSlash_no_slash a (hns a (by simp))]
  | a :: b :: segs, _, hns => by
    have hstep : canonicalString (a :: b :: segs) = a ++ '/' :: canonicalString (b :: segs) := by
      simp [canonicalString, List.intercalate, List.intersperse]
    rw [hstep, splitSlash_append a _ (hns a (by simp)),
      splitSlash_canonicalString (b :: segs) (by simp) (fun x hx => hns x (by simp at hx ⊢; tauto))]

/-! ## Facade-level helper lemmas -/

theorem Serializer.encodeFieldValue_ok (v : FieldValue) (st : Status) (bytes : List Nat)
    (h : Serializer.encodeFieldValue v = .ok (st, bytes)) :
    bytes = encFV v ∧ st = .ok ∧ (encFV v).length ≤ kMaxDocumentSize := by
  unfold Serializer.encodeFieldValue at h
  cases he : encodeFieldValueImpl Writer.Wrap v with
  | error e => rw [he, exErrBind] at h; exact absurd h (by simp)
  | ok w =>
    rw [he, exOkBind] at h
    injection h with h
    obtain ⟨hw, hle⟩ := encodeFieldValueImpl_real v [] 0 kMaxDocumentSize w he
    injection h with h1 h2
    subst h1
    subst h2
    rw [hw]
    simp at hle ⊢
    exact hle

theorem decodeFieldValueImpl_encFV_top (v : FieldValue) (f : Nat) (rest : List Nat)
    (hval : FieldValue.validb v = true) (hsz : (encFV v).length < 2 ^ 64)
    (hf : (encFV v).length < f) :
    decodeFieldValueImpl f ⟨encFV v ++ rest, .ok⟩ = .ok (v, ⟨rest, .ok⟩) :=
  decodeFieldValueImpl_encFV v f rest hval hsz hf

/-- C1: for every valid FieldValue of a supported variant, decoding the bytes
produced by the encoding facade yields the value back (on the nose, which
implies key-set plus per-key equality for objects). -/
theorem c1_decode_encode_round_trip (v : FieldValue) (st : Status) (bytes : List Nat)
    (hval : FieldValue.validb v = true)
    (henc : Serializer.encodeFieldValue v = .ok (st, bytes)) :
    Serializer.decodeFieldValue bytes = .value v := by
  obtain ⟨hb, hst, hsz⟩ := Serializer.encodeFieldValue_ok v st bytes henc
  subst hb
  have hsz64 : (encFV v).length < 2 ^ 64 :=
    lt_of_le_of_lt hsz (by norm_num [kMaxDocumentSize])
  unfold Serializer.decodeFieldValue
  have hd := decodeFieldValueImpl_encFV_top v (2 * (encFV v).length + 2) [] hval hsz64 (by omega)
  rw [List.append_nil] at hd
  rw [hd]
  rfl

/-- C1 witness. -/
theorem c1_witness :
    Serializer.decodeFieldValue [0x32, 0x09, 0x0A, 0x07, 0x0A, 0x01, 0x61, 0x12, 0x02,
      0x08, 0x01] = .value (.object (.entry [0x61] (.boolean true) .nil)) :=
  c1_decode_encode_round_trip (.object (.entry [0x61] (.boolean true) .nil)) .ok
    [0x32, 0x09, 0x0A, 0x07, 0x0A, 0x01, 0x61, 0x12, 0x02, 0x08, 0x01] (by decide) rfl

/-- C2 counterexample: 58 00 is the valid encoding of Null, and corrupting its
first byte to 18 (the same single position changed, same length) makes the
decoder abort on the unknown-field assertion rather than return the same value
or a DATA_LOSS status. -/
theorem c2_counterexample :
    Serializer.encodeFieldValue .null = .ok (.ok, [0x58, 0x00]) ∧
    Serializer.decodeFieldValue [0x18, 0x00] = .abort .unknownTag ∧
    ∀ a : AbortReason, DecodeResult.abort a ≠ DecodeResult.dataLoss :=
  ⟨rfl, by decide, fun a => by simp⟩

/-- C2 amended: corrupted input can also abort on an assertion (and can decode
to a different value), but the out-of-range half of the claim holds: whatever
the input bytes, any value the facade returns satisfies every domain
invariant, so no unchecked out-of-range value is ever produced. -/
theorem c2_decoded_values_valid (bytes : List Nat) (v : FieldValue)
    (h : Serializer.decodeFieldValue bytes = .value v) : FieldValue.validb v = true :=
  Serializer.decodeFieldValue_valid bytes v h

/-- C2 witness. -/
theorem c2_witness : FieldValue.validb (.integer 7) = true :=
  c2_decoded_values_valid [0x10, 0x07] (.integer 7) (by decide)

/-- C3 counterexample: the object scenario's reference bytes in the claim are
not what the encoder produces: the MapValue length is 9 and the FieldsEntry
length is 7, not 8 and 6. -/
theorem c3_counterexample :
    Serializer.encodeFieldValue (.object (.entry [0x61] (.boolean true) .nil)) =
      .ok (.ok, [0x32, 0x09, 0x0A, 0x07, 0x0A, 0x01, 0x61, 0x12, 0x02, 0x08, 0x01]) ∧
    ([0x32, 0x09, 0x0A, 0x07, 0x0A, 0x01, 0x61, 0x12, 0x02, 0x08, 0x01] : List Nat) ≠
      [0x32, 0x08, 0x0A, 0x06, 0x0A, 0x01, 0x61, 0x12, 0x02, 0x08, 0x01] :=
  ⟨rfl, by decide⟩

/-- C3 amended: Null encodes to 58 00 and Timestamp(1, 2) to 52 04 08 01 10 02
as the claim states; the object with key a and value true encodes to
32 09 0A 07 0A 01 61 12 02 08 01 (lengths 9 and 7 rather than the claimed
8 and 6). -/
theorem c3_reference_bytes :
    Serializer.encodeFieldValue .null = .ok (.ok, [0x58, 0x00]) ∧
    Serializer.encodeFieldValue (.timestamp 1 2) =
      .ok (.ok, [0x52, 0x04, 0x08, 0x01, 0x10, 0x02]) ∧
    Serializer.encodeFieldValue (.object (.entry [0x61] (.boolean true) .nil)) =
      .ok (.ok, [0x32, 0x09, 0x0A, 0x07, 0x0A, 0x01, 0x61, 0x12, 0x02, 0x08, 0x01]) :=
  ⟨rfl, rfl, rfl⟩

/-- C4 counterexample: an input with a residual trailing byte after one
complete value is accepted with OK status, not rejected. -/
theorem c4_counterexample :
    Serializer.decodeFieldValue [0x58, 0x00, 0x00] = .value .null := by decide

/-- C4 amended: the facade performs no residual-byte check: any input that
begins with the encoding of a valid value is accepted, the trailing bytes are
ignored, and the value decoded from the prefix is returned with OK status. -/
theorem c4_trailing_bytes_accepted (v : FieldValue) (st : Status) (bytes extra : List Nat)
    (hval : FieldValue.validb v = true)
    (henc : Serializer.encodeFieldValue v = .ok (st, bytes)) :
    Serializer.decodeFieldValue (bytes ++ extra) = .value v := by
  obtain ⟨hb, hst, hsz⟩ := Serializer.encodeFieldValue_ok v st bytes henc
  subst hb
  have hsz64 : (encFV v).length < 2 ^ 64 :=
    lt_of_le_of_lt hsz (by norm_num [kMaxDocumentSize])
  unfold Serializer.decodeFieldValue
  have hf : (encFV v).length < 2 * (encFV v ++ extra).length + 2 := by
    simp only [List.length_append]
    omega
  rw [decodeFieldValueImpl_encFV_top v (2 * (encFV v ++ extra).length + 2) extra hval hsz64 hf]
  rfl

/-- C4 witness. -/
theorem c4_witness : Serializer.decodeFieldValue ([0x58, 0x00] ++ [0x07, 0x07]) = .value .null :=
  c4_trailing_bytes_accepted .null .ok [0x58, 0x00] [0x07, 0x07] (by decide) rfl

/-- C8: key round trip over the same DatabaseId: decoding an encoded key
returns the original path; and decoding the same name against a DatabaseId
whose project or database differs fails the FIREBASE_ASSERT (wrong project or
wrong database).  Segments are slash-free as ResourcePath guarantees. -/
theorem c8_key_round_trip (database_id : DatabaseId) (path : List (List Char))
    (hp : '/' ∉ database_id.project_id) (hd : '/' ∉ database_id.database_id)
    (hpath : ∀ s ∈ path, '/' ∉ s) :
    Serializer.decodeKey database_id (Serializer.encodeKey database_id path) = .ok path ∧
    ∀ other : DatabaseId,
      other.project_id ≠ database_id.project_id ∨
        other.database_id ≠ database_id.database_id →
      ∃ a, Serializer.decodeKey other (Serializer.encodeKey database_id path) = .error a ∧
        (a = .wrongProject ∨ a = .wrongDatabase) := by
  have hres : splitSlash (Serializer.encodeKey database_id path) =
      "projects".toList :: database_id.project_id :: "databases".toList ::
        database_id.database_id :: "documents".toList :: path := by
    unfold Serializer.encodeKey encodeResourceName encodeDatabaseId
    rw [show (["projects".toList, database_id.project_id, "databases".toList,
        database_id.database_id] ++ "documents".toList :: path) =
      "projects".toList :: database_id.project_id :: "databases".toList ::
        database_id.database_id :: "documents".toList :: path from rfl]
    refine splitSlash_canonicalString _ (by simp) ?_
    intro x hx
    simp only [List.mem_cons] at hx
    rcases hx with rfl | rfl | rfl | rfl | rfl | hx
    · decide
    · exact hp
    · decide
    · exact hd
    · decide
    · exact hpath x hx
  have hvalid : decodeResourceName (Serializer.encodeKey database_id path) =
      .ok ("projects".toList :: database_id.project_id :: "databases".toList ::
        database_id.database_id :: "documents".toList :: path) := by
    unfold decodeResourceName
    rw [hres]
    rw [if_pos (by simp [isValidResourceName, List.getD])]
  constructor
  · unfold Serializer.decodeKey
    rw [hvalid, exOkBind]
    rw [if_neg (by simp [List.getD])]
    rw [if_neg (by simp [List.getD])]
    unfold extractLocalPathFromResourceName
    rw [if_pos (by simp [List.getD])]
    simp [List.getD]
  · intro other hdiff
    by_cases hpp : database_id.project_id = other.project_id
    · have hdd : database_id.database_id ≠ other.database_id := by
        rcases hdiff with h | h
        · exact absurd hpp.symm h
        · exact fun hh => h hh.symm
      refine ⟨.wrongDatabase, ?_, .inr rfl⟩
      unfold Serializer.decodeKey
      rw [hvalid, exOkBind]
      rw [if_neg (by simp [List.getD, hpp])]
      rw [if_pos (by simp [List.getD]; exact hdd)]
    · refine ⟨.wrongProject, ?_, .inl rfl⟩
      unfold Serializer.decodeKey
      rw [hvalid, exOkBind]
      rw [if_pos (by simp [List.getD]; exact hpp)]

/-- C8 witness: the key p1/d1 under project p, database d round trips, and
decoding it against database d2 of the same project fails on the database
check. -/
theorem c8_witness :
    Serializer.decodeKey ⟨"p".toList, "d".toList⟩
        (Serializer.encodeKey ⟨"p".toList, "d".toList⟩ ["p1".toList, "d1".toList]) =
      .ok ["p1".toList, "d1".toList] ∧
    ∃ a, Serializer.decodeKey ⟨"p".toList, "d2".toList⟩
        (Serializer.encodeKey ⟨"p".toList, "d".toList⟩ ["p1".toList, "d1".toList]) =
      .error a ∧ (a = .wrongProject ∨ a = .wrongDatabase) := by
  have h := c8_key_round_trip ⟨"p".toList, "d".toList⟩ ["p1".toList, "d1".toList]
    (by decide) (by decide) (by decide)
  exact ⟨h.1, h.2 ⟨"p".toList, "d2".toList⟩ (.inr (by decide))⟩

/-- C9: when the encoder over a real wrapping Writer completes, running the
same encoder over a sizing Writer succeeds and counts exactly the bytes the
real run appended to the buffer, so every declared nested length matches the
written payload. -/
theorem c9_sizing_equivalence (v : FieldValue) (w' : Writer)
    (h : encodeFieldValueImpl Writer.Wrap v = .ok w') :
    ∃ ws : Writer, encodeFieldValueImpl Writer.Sizing v = .ok ws ∧
      ws.written = w'.out.length := by
  obtain ⟨hw, -⟩ := encodeFieldValueImpl_real v [] 0 kMaxDocumentSize w' h
  refine ⟨⟨true, [], (encFV v).length, 0, .ok⟩, ?_, ?_⟩
  · have := encodeFieldValueImpl_sizing v [] 0 0
    simpa using this
  · rw [hw]
    simp

/-- C9 witness. -/
theorem c9_witness : ∃ ws : Writer,
    encodeFieldValueImpl Writer.Sizing (.timestamp 1 2) = .ok ws ∧
      ws.written = (6 : Nat) := by
  obtain ⟨ws, h1, h2⟩ := c9_sizing_equivalence (.timestamp 1 2) ⟨false,
    [0x52, 0x04, 0x08, 0x01, 0x10, 0x02], 6, kMaxDocumentSize, .ok⟩ rfl
  exact ⟨ws, h1, h2⟩

/-- C10: integer decoding performs no validation: the facade accepts every
64-bit varint payload on the integer field, including ten-byte varints whose
two's-complement reinterpretation is negative, and ReadInteger itself is
exactly ReadVarint followed by the reinterpretation, never touching the status. -/
theorem c10_integer_no_validation :
    (∀ n : Nat, n < 2 ^ 64 →
      Serializer.decodeFieldValue (0x10 :: encodeVarint n) = .value (.integer (toInt64 n))) ∧
    ∀ r : Reader, r.readInteger = (toInt64 (r.readVarint).1, (r.readVarint).2) := by
  constructor
  · intro n hn
    unfold Serializer.decodeFieldValue
    have h1 := one_le_length_encodeVarint n
    obtain ⟨f1, hf⟩ : ∃ f1, 2 * (0x10 :: encodeVarint n).length + 2 = f1 + 1 :=
      ⟨2 * (0x10 :: encodeVarint n).length + 1, by omega⟩
    rw [hf]
    have htag : (⟨0x10 :: encodeVarint n, .ok⟩ : Reader).readTag =
        (⟨PB_WT_VARINT, Value_integer_value_tag⟩, ⟨encodeVarint n, .ok⟩) := by
      have : (0x10 : Nat) :: encodeVarint n =
          encodeVarint (Value_integer_value_tag * 8 + PB_WT_VARINT) ++ encodeVarint n := rfl
      rw [this]
      exact Reader.readTag_encodeTag _ _ _ (by decide) (by decide) (by decide)
    simp only [decodeFieldValueImpl]
    rw [htag]
    have hri : (⟨encodeVarint n, .ok⟩ : Reader).readInteger = (toInt64 n, ⟨[], .ok⟩) := by
      unfold Reader.readInteger Reader.readVarint
      rw [if_neg (by simp), readVarintAux_encodeVarint_nil]
      simp [toInt64_mod_lit]
    simp [exOkBind, exPure, hri, Value_integer_value_tag, Value_null_value_tag,
      Value_boolean_value_tag]
  · intro r
    rfl

/-- C5 counterexample: the encoder accepts a map with a duplicate key and the
decoder then hits the FIREBASE_ASSERT on the duplicate (entry for key a seen
twice) and aborts instead of returning a recoverable DATA_LOSS status. -/
theorem c5_counterexample :
    Serializer.encodeFieldValue
        (.object (.entry [0x61] (.boolean true) (.entry [0x61] (.boolean true) .nil))) =
      .ok (.ok, [0x32, 0x12, 0x0A, 0x07, 0x0A, 0x01, 0x61, 0x12, 0x02, 0x08, 0x01,
        0x0A, 0x07, 0x0A, 0x01, 0x61, 0x12, 0x02, 0x08, 0x01]) ∧
    Serializer.decodeFieldValue [0x32, 0x12, 0x0A, 0x07, 0x0A, 0x01, 0x61, 0x12, 0x02, 0x08,
        0x01, 0x0A, 0x07, 0x0A, 0x01, 0x61, 0x12, 0x02, 0x08, 0x01] =
      .abort .duplicateKey ∧
    DecodeResult.abort .duplicateKey ≠ DecodeResult.dataLoss :=
  ⟨rfl, by decide, by decide⟩

/-- C5 amended: a duplicate key within one MapValue makes the decoder fail the
FIREBASE_ASSERT at the std::map find, aborting the process; no DATA_LOSS
status reaches the caller.  Stated over every object whose (valid-valued)
entry list has a key clash and that the encoding facade accepted. -/
theorem c5_duplicate_key_aborts (m : ObjMap) (st : Status) (bytes : List Nat)
    (hent : ObjMap.entriesValidb m = true) (hdup : m.clashes [] = true)
    (henc : Serializer.encodeFieldValue (.object m) = .ok (st, bytes)) :
    Serializer.decodeFieldValue bytes = .abort .duplicateKey := by
  obtain ⟨hb, -, hsz⟩ := Serializer.encodeFieldValue_ok (.object m) st bytes henc
  subst hb
  have hsz64 : (encFV (FieldValue.object m)).length < 2 ^ 64 :=
    lt_of_le_of_lt hsz (by norm_num [kMaxDocumentSize])
  unfold Serializer.decodeFieldValue
  have hlen : (encMapBody m).length < 2 * (encFV (FieldValue.object m)).length := by
    have h1 := one_le_length_encodeVarint (Value_map_value_tag * 8 + PB_WT_STRING)
    have h2 := one_le_length_encodeVarint (encMapBody m).length
    simp only [encFV, List.length_append]
    omega
  have hd := decodeFieldValueImpl_encFV_dup m (2 * (encFV (FieldValue.object m)).length) []
    hent hdup hsz64 hlen
  rw [List.append_nil] at hd
  rw [show 2 * (encFV (FieldValue.object m)).length + 2 =
    2 * (encFV (FieldValue.object m)).length + 1 + 1 from rfl, hd]

/-- C5 witness. -/
theorem c5_witness :
    Serializer.decodeFieldValue [0x32, 0x12, 0x0A, 0x07, 0x0A, 0x01, 0x61, 0x12, 0x02, 0x08,
        0x01, 0x0A, 0x07, 0x0A, 0x01, 0x62, 0x12, 0x02, 0x08, 0x01] ≠
      .abort .duplicateKey ∧
    Serializer.decodeFieldValue [0x32, 0x12, 0x0A, 0x07, 0x0A, 0x01, 0x63, 0x12, 0x02, 0x08,
        0x01, 0x0A, 0x07, 0x0A, 0x01, 0x63, 0x12, 0x02, 0x08, 0x01] =
      .abort .duplicateKey :=
  ⟨by decide,
    c5_duplicate_key_aborts (.entry [0x63] (.boolean true) (.entry [0x63] (.boolean true) .nil))
      .ok [0x32, 0x12, 0x0A, 0x07, 0x0A, 0x01, 0x63, 0x12, 0x02, 0x08, 0x01,
        0x0A, 0x07, 0x0A, 0x01, 0x63, 0x12, 0x02, 0x08, 0x01]
      (by decide) (by decide) rfl⟩

/-- C6 counterexample: the input 18 00 carries first tag (VARINT, 3), a
field number outside the table, and decoding aborts on the FIREBASE_ASSERT
in the default branch instead of returning a recoverable DATA_LOSS status. -/
theorem c6_counterexample :
    Serializer.decodeFieldValue [0x18, 0x00] = .abort .unknownTag ∧
    DecodeResult.abort .unknownTag ≠ DecodeResult.dataLoss := by
  refine ⟨by decide, by decide⟩

/-- C6 amended: for every input whose first tag is read with OK status and
carries a field number outside the table given as 11, 1, 2, 17, 10, 6, the
facade aborts via the FIREBASE_ASSERT in the default branch of
DecodeFieldValueImpl; the DATA_LOSS return after the assert is unreachable. -/
theorem c6_unknown_tag_aborts (bytes : List Nat) (tag : Tag) (r' : Reader)
    (hr : Reader.readTag ⟨bytes, .ok⟩ = (tag, r')) (hok : r'.status = .ok)
    (h1 : tag.fieldNumber ≠ Value_null_value_tag)
    (h2 : tag.fieldNumber ≠ Value_boolean_value_tag)
    (h3 : tag.fieldNumber ≠ Value_integer_value_tag)
    (h4 : tag.fieldNumber ≠ Value_string_value_tag)
    (h5 : tag.fieldNumber ≠ Value_timestamp_value_tag)
    (h6 : tag.fieldNumber ≠ Value_map_value_tag) :
    Serializer.decodeFieldValue bytes = .abort .unknownTag := by
  unfold Serializer.decodeFieldValue
  obtain ⟨f1, hf⟩ : ∃ f1, 2 * bytes.length + 2 = f1 + 1 := ⟨2 * bytes.length + 1, by omega⟩
  rw [hf]
  simp only [decodeFieldValueImpl]
  rw [hr]
  simp [hok, h1, h2, h3, h4, h5, h6, exErrBind]

/-- C6 witness. -/
theorem c6_witness : Serializer.decodeFieldValue [0x38, 0x00] = .abort .unknownTag :=
  c6_unknown_tag_aborts [0x38, 0x00] ⟨0, 7⟩ ⟨[0x00], .ok⟩ (by decide) rfl
    (by decide) (by decide) (by decide) (by decide) (by decide) (by decide)

/-- C7: for every input whose first tag is read with OK status, has a known
field number but a wire type other than the one the table assigns to it
(VARINT for 11, 1, 2; STRING for 17, 10, 6), the facade returns DATA_LOSS
and no value. -/
theorem c7_wire_type_mismatch_data_loss (bytes : List Nat) (tag : Tag) (r' : Reader)
    (hr : Reader.readTag ⟨bytes, .ok⟩ = (tag, r')) (hok : r'.status = .ok)
    (h : ((tag.fieldNumber = Value_null_value_tag ∨ tag.fieldNumber = Value_boolean_value_tag ∨
            tag.fieldNumber = Value_integer_value_tag) ∧ tag.wireType ≠ PB_WT_VARINT) ∨
         ((tag.fieldNumber = Value_string_value_tag ∨
            tag.fieldNumber = Value_timestamp_value_tag ∨
            tag.fieldNumber = Value_map_value_tag) ∧ tag.wireType ≠ PB_WT_STRING)) :
    Serializer.decodeFieldValue bytes = .dataLoss := by
  unfold Serializer.decodeFieldValue
  obtain ⟨f1, hf⟩ : ∃ f1, 2 * bytes.length + 2 = f1 + 1 := ⟨2 * bytes.length + 1, by omega⟩
  rw [hf]
  simp only [decodeFieldValueImpl]
  rw [hr]
  rcases h with ⟨hfn, hwt⟩ | ⟨hfn, hwt⟩
  · rw [if_pos hfn]
    simp [hok, hwt, exOkBind, exPure]
  · have hfn' : ¬(tag.fieldNumber = Value_null_value_tag ∨
        tag.fieldNumber = Value_boolean_value_tag ∨
        tag.fieldNumber = Value_integer_value_tag) := by
      rcases hfn with h | h | h <;> rw [h] <;> decide
    rw [if_neg hfn', if_pos hfn]
    simp [hok, hwt, exOkBind, exPure]

/-- C7 witness: 5A 00 carries tag (STRING, 11), a known field number with the
wrong wire type, and decoding returns DATA_LOSS. -/
theorem c7_witness : Serializer.decodeFieldValue [0x5A, 0x00] = .dataLoss :=
  c7_wire_type_mismatch_data_loss [0x5A, 0x00] ⟨2, 11⟩ ⟨[0x00], .ok⟩ (by decide) rfl
    (.inl ⟨by decide, by decide⟩)

/-- C10 witness: the full ten-byte varint for 2 to the 64 minus 1 decodes to
the integer minus one. -/
theorem c10_witness :
    Serializer.decodeFieldValue (0x10 :: encodeVarint (2 ^ 64 - 1)) =
      .value (.integer (toInt64 (2 ^ 64 - 1))) :=
  c10_integer_no_validation.1 (2 ^ 64 - 1) (by norm_num)

end Remote
